import Mathlib

/-!
# Verification of the CFM dual-pane file manager core

Shallow embedding of the batch file-operation engine
(`src/core/file_operations.py`), the filename validator
(`src/utils/helpers.py`) and the panel navigation / listing logic
(`src/ui/panels/file_panel.py`, `src/file_panel.py`), together with
theorems settling the specification claims about them.

The filesystem is modelled as a finite tree of named nodes; a file's
payload is abstracted as a single `Nat` which doubles as its size and its
content identity.  Python `pathlib.Path` values are modelled as lists of
path components.  Fallible OS primitives (`shutil.copy2`,
`shutil.copytree(dirs_exist_ok=True)`, `shutil.move`, `shutil.rmtree`,
`Path.unlink`, `Path.mkdir(parents=True)`) are modelled as
`Except`/`Option`-returning functions on the tree, following the
documented behaviour of those library calls on a single (POSIX)
filesystem.  OS failures that are invisible to the tree model
(permissions, devices, races) are modelled by an injected per-item fault
oracle.
-/

namespace CFM

/-! ## Decimal representation of a counter

Models the Python f-string `f"{counter}"` used by
`FileOperationsManager._get_unique_name`: the standard decimal numeral.
Implemented with explicit fuel so that it is structural (and therefore
evaluates by `decide`/`rfl`); `decReprAux_spec` below shows the fuel
`n + 1` always suffices. -/

/-- The character for a single decimal digit `d < 10` (models `str(d)`). -/
def digitChar (d : Nat) : Char := Char.ofNat (48 + d)

/-- Digits of `n` in base 10, most significant first, with explicit fuel. -/
def decDigitsAux : Nat → Nat → List Char
  | 0, _ => []
  | fuel + 1, n =>
    if n < 10 then [digitChar n]
    else decDigitsAux fuel (n / 10) ++ [digitChar (n % 10)]

/-- Decimal representation of a natural number (models Python `str(n)`). -/
def decRepr (n : Nat) : String := ⟨decDigitsAux (n + 1) n⟩

/-- Value of a digit string, used to prove `decRepr` injective. -/
def decVal (cs : List Char) : Nat :=
  cs.foldl (fun a c => a * 10 + (c.toNat - 48)) 0

/-! ## String helpers

Python string primitives used by the sources: code-point lexicographic
comparison (Python `str` `<`/`<=`), `str.lower`/`str.upper` (modelled on
the ASCII range by `Char.toLower`/`Char.toUpper`, which is exact for the
names the claims quantify over), and `str.startswith`. -/

/-- Code-point lexicographic `<=` on character lists (Python `str` order). -/
def lexLe : List Char → List Char → Bool
  | [], _ => true
  | _ :: _, [] => false
  | a :: as, b :: bs =>
    if a.toNat < b.toNat then true
    else if b.toNat < a.toNat then false
    else lexLe as bs

/-- Models Python `str.lower()` (exact on ASCII). -/
def strLower (s : String) : String := ⟨s.data.map Char.toLower⟩

/-- Models Python `str.upper()` (exact on ASCII). -/
def strUpper (s : String) : String := ⟨s.data.map Char.toUpper⟩

/-- Models Python `str.startswith(p)`. -/
def strStartsWith (s p : String) : Bool := p.data.isPrefixOf s.data

/-! ## Paths and the filesystem model

A Python `pathlib.Path` is modelled as its list of components relative to
the filesystem root (`[]` is the root).  The filesystem itself is a tree:
a `Node.file` carries a `Nat` payload standing for both the file's content
identity and its size; a `Node.dir` carries an association list of
children keyed by (unique) names. -/

/-- A path: list of components from the root. -/
abbrev FsPath := List String

/-- Render a path for error messages (models `str(path)`). -/
def pathToString (p : FsPath) : String := "/" ++ String.intercalate "/" p

/-- Models `path.parent` (the parent of the root is the root). -/
def parentPath (p : FsPath) : FsPath := p.dropLast

/-- Models `path.name` (last component; `""` for the root). -/
def lastName (p : FsPath) : String := p.getLastD ""

/-- A filesystem node: a file (payload = content identity = size) or a
directory with named children. -/
inductive Node where
  | file (payload : Nat)
  | dir (children : List (String × Node))

/-- First binding of name `n` among directory children. -/
def assocFind (l : List (String × Node)) (n : String) : Option Node :=
  match l with
  | [] => none
  | (m, v) :: rest => if m = n then some v else assocFind rest n

/-- Replace the first binding of `n` (append if absent): directory-entry
update. -/
def assocSet (l : List (String × Node)) (n : String) (v : Node) :
    List (String × Node) :=
  match l with
  | [] => [(n, v)]
  | (m, w) :: rest =>
    if m = n then (m, v) :: rest else (m, w) :: assocSet rest n v

/-- Remove every binding of `n`. -/
def assocRemove (l : List (String × Node)) (n : String) :
    List (String × Node) :=
  l.filter (fun e => decide (e.1 ≠ n))

/-- Resolve a path in the tree (models `Path.exists` / `stat`). -/
def fsLookup : Node → FsPath → Option Node
  | node, [] => some node
  | Node.file _, _ :: _ => none
  | Node.dir ch, n :: rest =>
    match assocFind ch n with
    | some c => fsLookup c rest
    | none => none

/-- Write `v` at `p` (recursion on the path), replacing any existing
node; fails (`none`) when the parent chain does not exist as
directories. -/
def fsSetGo : FsPath → Node → Node → Option Node
  | [], _, v => some v
  | _ :: _, Node.file _, _ => none
  | [n], Node.dir ch, v => some (Node.dir (assocSet ch n v))
  | n :: rest₀ :: rest, Node.dir ch, v =>
    match assocFind ch n with
    | some c =>
      (fsSetGo (rest₀ :: rest) c v).map (fun c' => Node.dir (assocSet ch n c'))
    | none => none

/-- Write `v` at `p`, replacing any existing node; fails (`none`) when
the parent chain does not exist as directories. -/
def fsSet (fs : Node) (p : FsPath) (v : Node) : Option Node := fsSetGo p fs v

/-- Remove the node at `p` (recursion on the path); fails (`none`) when
`p` is the root or does not exist. -/
def fsRemoveGo : FsPath → Node → Option Node
  | [], _ => none
  | _ :: _, Node.file _ => none
  | [n], Node.dir ch =>
    match assocFind ch n with
    | some _ => some (Node.dir (assocRemove ch n))
    | none => none
  | n :: rest₀ :: rest, Node.dir ch =>
    match assocFind ch n with
    | some c =>
      (fsRemoveGo (rest₀ :: rest) c).map (fun c' => Node.dir (assocSet ch n c'))
    | none => none

/-- Remove the node at `p`; fails (`none`) when `p` is the root or does
not exist. -/
def fsRemove (fs : Node) (p : FsPath) : Option Node := fsRemoveGo p fs

/-- Names of the children of the directory at `p` (empty when `p` is not
an existing directory). -/
def dirChildNames (fs : Node) (p : FsPath) : List String :=
  match fsLookup fs p with
  | some (Node.dir ch) => ch.map Prod.fst
  | _ => []

/-! ## Models of the `shutil` / `os` primitives the engine calls

`copytreeMerge src dstOpt` models `shutil.copytree(src, dst,
dirs_exist_ok=True)` as a tree-to-tree merge, where `dstOpt` is the node
currently at `dst` (`none` when absent): existing destination directories
are merged, destination files are overwritten by `copy2`, and — as
`shutil.copy2` does — a source *file* whose destination exists as a
*directory* is copied *into* that directory under its own name.  Errors
are modelled as aborting the merge (real `copytree` collects per-child
errors and raises at the end; no theorem below relies on the state after
a failed merge). -/
mutual

def copytreeMerge : Node → Option Node → Except String Node
  | Node.file _, _ => Except.error "NotADirectoryError"
  | Node.dir _, some (Node.file _) => Except.error "FileExistsError"
  | Node.dir srcCh, some (Node.dir dstCh) =>
    (copytreeChildren srcCh dstCh).map Node.dir
  | Node.dir srcCh, none => (copytreeChildren srcCh []).map Node.dir

def copytreeChildren :
    List (String × Node) → List (String × Node) →
    Except String (List (String × Node))
  | [], dstCh => Except.ok dstCh
  | (n, Node.dir srcSub) :: rest, dstCh =>
    match copytreeMerge (Node.dir srcSub) (assocFind dstCh n) with
    | Except.ok merged => copytreeChildren rest (assocSet dstCh n merged)
    | Except.error e => Except.error e
  | (n, Node.file v) :: rest, dstCh =>
    match assocFind dstCh n with
    | some (Node.dir inner) =>
      -- copy2 into an existing directory: target becomes dst/n/n
      match assocFind inner n with
      | some (Node.dir _) => Except.error "IsADirectoryError"
      | _ =>
        copytreeChildren rest
          (assocSet dstCh n (Node.dir (assocSet inner n (Node.file v))))
    | _ => copytreeChildren rest (assocSet dstCh n (Node.file v))

end

/-- Wraps an OS-level error exactly as
`FileOperationsManager._copy_single_item` does. -/
def copyErrorMsg (source : FsPath) (e : String) : String :=
  "Ошибка копирования " ++ pathToString source ++ ": " ++ e

/-- Wraps an OS-level error exactly as
`FileOperationsManager._move_single_item` does. -/
def moveErrorMsg (source : FsPath) (e : String) : String :=
  "Ошибка перемещения " ++ pathToString source ++ ": " ++ e

/-- Wraps an OS-level error exactly as
`FileOperationsManager._delete_single_item` does. -/
def deleteErrorMsg (path : FsPath) (e : String) : String :=
  "Ошибка удаления " ++ pathToString path ++ ": " ++ e

/-- The target `shutil.copy2` actually writes for a file source: when
`destination` is an existing directory the file is copied *into* it under
the source's base name, otherwise to `destination` itself. -/
def copy2Target (fs : Node) (source destination : FsPath) : FsPath :=
  match fsLookup fs destination with
  | some (Node.dir _) => destination ++ [lastName source]
  | _ => destination

/-- Model of `FileOperationsManager._copy_single_item`: `shutil.copytree(
source, destination, dirs_exist_ok=True)` for a directory source,
`shutil.copy2(source, destination)` for a file source (`copy2` copies
*into* `destination` when it is an existing directory). -/
def copySingle (fs : Node) (source destination : FsPath) :
    Except String Node :=
  match fsLookup fs source with
  | some (Node.dir srcCh) =>
    match copytreeMerge (Node.dir srcCh) (fsLookup fs destination) with
    | Except.ok merged =>
      match fsSet fs destination merged with
      | some fs' => Except.ok fs'
      | none => Except.error (copyErrorMsg source "No such file or directory")
    | Except.error e => Except.error (copyErrorMsg source e)
  | some (Node.file v) =>
    match fsLookup fs (copy2Target fs source destination) with
    | some (Node.dir _) => Except.error (copyErrorMsg source "IsADirectoryError")
    | _ =>
      match fsSet fs (copy2Target fs source destination) (Node.file v) with
      | some fs' => Except.ok fs'
      | none => Except.error (copyErrorMsg source "No such file or directory")
  | none => Except.error (copyErrorMsg source "No such file or directory")

/-- Model of a same-filesystem `os.rename(src, dst)` (already past
`shutil.move`'s existing-directory redirection): replaces an existing
file destination when the source is a file, errors on kind mismatches,
and physically relocates the subtree. -/
def renameNode (fs : Node) (src dst : FsPath) (srcNode : Node)
    (wrap : String → String) : Except String Node :=
  if src = dst then Except.ok fs
  else
    match fsLookup fs dst, srcNode with
    | some (Node.file _), Node.file _ =>
      match fsRemove fs src with
      | some fs₁ =>
        match fsSet fs₁ dst srcNode with
        | some fs₂ => Except.ok fs₂
        | none => Except.error (wrap "Invalid cross-device link")
      | none => Except.error (wrap "No such file or directory")
    | some (Node.file _), Node.dir _ => Except.error (wrap "Not a directory")
    | some (Node.dir _), _ => Except.error (wrap "Is a directory")
    | none, _ =>
      match fsRemove fs src with
      | some fs₁ =>
        match fsSet fs₁ dst srcNode with
        | some fs₂ => Except.ok fs₂
        | none => Except.error (wrap "Invalid cross-device link")
      | none => Except.error (wrap "No such file or directory")

/-- Model of `FileOperationsManager._move_single_item`, i.e.
`shutil.move(source, destination)` on one filesystem: when `destination`
is an existing directory the real target becomes
`destination / basename(source)` (erroring if that already exists or if
`destination` lies inside `source`); the move itself is an `os.rename`. -/
def moveSingle (fs : Node) (source destination : FsPath) :
    Except String Node :=
  match fsLookup fs source with
  | none => Except.error (moveErrorMsg source "No such file or directory")
  | some srcNode =>
    match fsLookup fs destination with
    | some (Node.dir _) =>
      if source.isPrefixOf destination then
        Except.error (moveErrorMsg source "Cannot move a directory into itself")
      else
        if (fsLookup fs (destination ++ [lastName source])).isSome then
          Except.error (moveErrorMsg source ("Destination path " ++
            pathToString (destination ++ [lastName source]) ++
            " already exists"))
        else
          renameNode fs source (destination ++ [lastName source]) srcNode
            (moveErrorMsg source)
    | _ => renameNode fs source destination srcNode (moveErrorMsg source)

/-- Model of `FileOperationsManager._delete_single_item`:
`shutil.rmtree` for directories, `Path.unlink` for files. -/
def deleteSingle (fs : Node) (path : FsPath) : Except String Node :=
  match fsLookup fs path with
  | none => Except.error (deleteErrorMsg path "No such file or directory")
  | some _ =>
    match fsRemove fs path with
    | some fs' => Except.ok fs'
    | none => Except.error (deleteErrorMsg path "Operation not permitted")

/-! ## Rename-on-conflict (`FileOperationsManager._get_unique_name`) -/

/-- Index of the last `'.'` in a character list, if any. -/
def rfindDot : List Char → Option Nat
  | [] => none
  | c :: rest =>
    match rfindDot rest with
    | some i => some (i + 1)
    | none => if c = '.' then some 0 else none

/-- Models `pathlib`'s `PurePath.stem` / `PurePath.suffix` split of a file
name: the suffix is `name[i:]` for the last dot index `i` when
`0 < i < len(name) - 1`, otherwise empty. -/
def splitStemSuffix (name : String) : String × String :=
  let cs := name.data
  match rfindDot cs with
  | some i =>
    if 0 < i ∧ i < cs.length - 1 then (⟨cs.take i⟩, ⟨cs.drop i⟩)
    else (name, "")
  | none => (name, "")

/-- The candidate name tried for counter value `n`: the Python f-string
`f"{stem} ({n}){suffix}"`. -/
def uniqueCandidate (stem suffix : String) (n : Nat) : String :=
  stem ++ " (" ++ decRepr n ++ ")" ++ suffix

/-- The `while True` loop of `_get_unique_name` with explicit fuel:
starting at `counter`, return the first candidate not present among the
existing names of the destination's parent directory. -/
def uniqueNameLoop (existing : List String) (stem suffix : String) :
    Nat → Nat → Option String
  | 0, _ => none
  | fuel + 1, counter =>
    let new_name := uniqueCandidate stem suffix counter
    if new_name ∈ existing then uniqueNameLoop existing stem suffix fuel (counter + 1)
    else some new_name

/-- The unique name chosen against a finite set of existing sibling
names.  `existing.length + 1` rounds of fuel always suffice
(`uniqueNameLoop_isSome` below), so the fallback value of `getD` is never
used. -/
def uniqueNameFrom (existing : List String) (stem suffix : String) : String :=
  (uniqueNameLoop existing stem suffix (existing.length + 1) 1).getD
    (uniqueCandidate stem suffix (existing.length + 1))

/-- Model of `FileOperationsManager._get_unique_name`: split the colliding
destination's final component into stem and suffix and probe
`stem (N)suffix` for `N = 1, 2, …` against the live parent directory
(`(parent / new_name).exists()` holds exactly for the parent's current
child names; for a non-directory parent no candidate exists and the first
is chosen, as in the source). -/
def get_unique_name (fs : Node) (path : FsPath) : FsPath :=
  let stem := (splitStemSuffix (lastName path)).1
  let suffix := (splitStemSuffix (lastName path)).2
  let parent := parentPath path
  parent ++ [uniqueNameFrom (dirChildNames fs parent) stem suffix]

/-! ## The batch operation engine (`FileOperationsManager`) -/

/-- Enum `OperationType` from `src/core/file_operations.py`. -/
inductive OperationType where
  | copy
  | move
  | delete
  | create_dir
deriving DecidableEq, Repr

/-- Enum `OperationResult` from `src/core/file_operations.py`. -/
inductive OperationResult where
  | success
  | skipped
  | error
  | cancelled
deriving DecidableEq, Repr

/-- Dataclass `OperationItem`: one per input entry, `result = none` while
pending. -/
structure OperationItem where
  source : FsPath
  destination : FsPath
  operation_type : OperationType
  result : Option OperationResult := none
  error_message : Option String := none
deriving DecidableEq, Repr

/-- Dataclass `OperationProgress` (snapshot emitted before each item). -/
structure OperationProgress where
  current_item : Nat
  total_items : Nat
  current_bytes : Nat
  total_bytes : Nat
  current_file : String
  operation_type : OperationType
deriving DecidableEq, Repr

/-- Dataclass `FileItem` (`src/models/file_item.py`), restricted to the
fields the engine and the panel listing read: `name`, `path`, `is_dir`,
`size` (`none` for directories) and `is_hidden`.  The omitted fields
(`modified_time`, `extension`, `permissions`) are not consulted by any
claim. -/
structure FileItem where
  name : String
  path : FsPath
  is_dir : Bool
  size : Option Nat
  is_hidden : Bool := false
deriving DecidableEq, Repr

/-- The ambient oracles of a batch run (the conflict resolver itself is a
separate `Option (Nat → String)` mirroring the manager's
`conflict_resolver` attribute, mapping the item index of each prompt to
the decision string the user returns):
* `fault i` — `some msg` injects an OS-level exception (permissions,
  races, devices) raised inside the single-item operation for item `i`,
  invisible to the tree model;
* `externalCancel i` — `true` when `cancel_operation()` has set
  `self._cancelled` by the time the loop's flag check for item `i`
  runs. -/
structure BatchEnv where
  fault : Nat → Option String
  externalCancel : Nat → Bool

/-- `sum(item.size or 0 for item in items if not item.is_dir)`. -/
def totalBytesOf (items : List FileItem) : Nat :=
  (items.filter (fun it => !it.is_dir)).foldl
    (fun a it => a + (it.size.getD 0)) 0

/-- The error message recorded when the single-item operation of kind
`op` raises on `source` with inner error `e`. -/
def opErrorMsg (op : OperationType) (source : FsPath) (e : String) : String :=
  match op with
  | OperationType.copy => copyErrorMsg source e
  | OperationType.move => moveErrorMsg source e
  | _ => e

/-- The single-item operation dispatch of `_execute_batch_operation`
(`if operation_type == COPY … elif MOVE …`; any other kind performs no
work and succeeds), with the fault oracle injected inside the item's
`try` block. -/
def runSingle (op : OperationType) (fault : Option String) (fs : Node)
    (source destination : FsPath) : Except String Node :=
  match fault with
  | some m => Except.error (opErrorMsg op source m)
  | none =>
    match op with
    | OperationType.copy => copySingle fs source destination
    | OperationType.move => moveSingle fs source destination
    | _ => Except.ok fs

/-- Executes one item at its (possibly renamed) destination: the `try`
block of `_execute_batch_operation` from the operation dispatch on.
Returns the finalized `OperationItem`, the filesystem afterwards and the
updated `current_bytes` counter (`if not item.is_dir and item.size:
current_bytes += item.size`). -/
def execOne (op : OperationType) (fault : Option String) (item : FileItem)
    (fs : Node) (bytes : Nat) (dest : FsPath) : OperationItem × Node × Nat :=
  match runSingle op fault fs item.path dest with
  | Except.ok fs' =>
    let bytes' :=
      if !item.is_dir && item.size.getD 0 ≠ 0 then bytes + item.size.getD 0
      else bytes
    ({ source := item.path, destination := dest, operation_type := op,
       result := some OperationResult.success }, fs', bytes')
  | Except.error e =>
    ({ source := item.path, destination := dest, operation_type := op,
       result := some OperationResult.error, error_message := some e },
     fs, bytes)

/-- Handles one item of `_execute_batch_operation` after the cancellation
check: conflict detection (`destination.exists()`), consulting the
resolver when one is configured, and the skip / rename / cancel /
fall-through outcomes.  `none` means the resolver answered `'cancel'`
(the loop breaks with no entry recorded for this item). -/
def processItem (resolver : Option (Nat → String)) (env : BatchEnv)
    (destDir : FsPath) (op : OperationType) (i : Nat) (item : FileItem)
    (fs : Node) (bytes : Nat) : Option (OperationItem × Node × Nat) :=
  -- destination = destination_dir / item.name
  match resolver, (fsLookup fs (destDir ++ [item.name])).isSome with
  | some res, true =>
    if res i = "cancel" then none
    else if res i = "skip" then
      some ({ source := item.path, destination := destDir ++ [item.name],
              operation_type := op,
              result := some OperationResult.skipped }, fs, bytes)
    else if res i = "rename" then
      some (execOne op (env.fault i) item fs bytes
        (get_unique_name fs (destDir ++ [item.name])))
    else some (execOne op (env.fault i) item fs bytes (destDir ++ [item.name]))
  | _, _ => some (execOne op (env.fault i) item fs bytes (destDir ++ [item.name]))

/-- The `for i, item in enumerate(items)` loop of
`_execute_batch_operation`: `i` is the current index, `cancelled` the
`self._cancelled` flag as last observed by the loop itself, `bytes` the
running `current_bytes`.  Returns the result list, the final filesystem
and the emitted progress snapshots. -/
def execBatchLoop (resolver : Option (Nat → String)) (env : BatchEnv)
    (destDir : FsPath) (op : OperationType) (totalItems totalBytes : Nat) :
    Nat → List FileItem → Bool → Node → Nat →
    List OperationItem × Node × List OperationProgress
  | _, [], _, fs, _ => ([], fs, [])
  | i, item :: rest, cancelled, fs, bytes =>
    if cancelled || env.externalCancel i then ([], fs, [])
    else
      let progress : OperationProgress :=
        ⟨i + 1, totalItems, bytes, totalBytes, pathToString item.path, op⟩
      match processItem resolver env destDir op i item fs bytes with
      | none => ([], fs, [progress])
      | some (opItem, fs', bytes') =>
        let r := execBatchLoop resolver env destDir op totalItems totalBytes
          (i + 1) rest false fs' bytes'
        (opItem :: r.1, r.2.1, progress :: r.2.2)
termination_by structural _ items _ _ _ => items

/-- `FileOperationsManager._execute_batch_operation`.  `cancelledBefore`
is the manager's `self._cancelled` flag on entry; the method's first
action is `self._cancelled = False`, so the loop always starts with the
flag cleared. -/
def execBatchOperation (cancelledBefore : Bool)
    (resolver : Option (Nat → String)) (env : BatchEnv)
    (items : List FileItem) (destDir : FsPath) (op : OperationType)
    (fs : Node) : List OperationItem × Node × List OperationProgress :=
  let _ := cancelledBefore
  -- self._cancelled = False
  execBatchLoop resolver env destDir op items.length (totalBytesOf items)
    0 items false fs 0

/-- `FileOperationsManager.copy_items`. -/
def copy_items (cancelledBefore : Bool) (resolver : Option (Nat → String))
    (env : BatchEnv) (items : List FileItem) (destDir : FsPath) (fs : Node) :
    List OperationItem × Node × List OperationProgress :=
  execBatchOperation cancelledBefore resolver env items destDir
    OperationType.copy fs

/-- `FileOperationsManager.move_items`. -/
def move_items (cancelledBefore : Bool) (resolver : Option (Nat → String))
    (env : BatchEnv) (items : List FileItem) (destDir : FsPath) (fs : Node) :
    List OperationItem × Node × List OperationProgress :=
  execBatchOperation cancelledBefore resolver env items destDir
    OperationType.move fs

/-- The `_delete_single_item` call inside `delete_items`' `try` block,
with the fault oracle injected. -/
def deleteAttempt (fault : Option String) (fs : Node) (path : FsPath) :
    Except String Node :=
  match fault with
  | some m => Except.error (deleteErrorMsg path m)
  | none => deleteSingle fs path

/-- The `for i, item in enumerate(items)` loop of
`FileOperationsManager.delete_items` (the `destination` of a delete
`OperationItem` is `Path()`, modelled as the root path `[]`). -/
def deleteLoop (env : BatchEnv) (totalItems : Nat) :
    Nat → List FileItem → Bool → Node →
    List OperationItem × Node × List OperationProgress
  | _, [], _, fs => ([], fs, [])
  | i, item :: rest, cancelled, fs =>
    if cancelled || env.externalCancel i then ([], fs, [])
    else
      let progress : OperationProgress :=
        ⟨i + 1, totalItems, 0, 0, pathToString item.path,
         OperationType.delete⟩
      match deleteAttempt (env.fault i) fs item.path with
      | Except.ok fs' =>
        let r := deleteLoop env totalItems (i + 1) rest false fs'
        ({ source := item.path, destination := [],
           operation_type := OperationType.delete,
           result := some OperationResult.success } :: r.1,
         r.2.1, progress :: r.2.2)
      | Except.error e =>
        let r := deleteLoop env totalItems (i + 1) rest false fs
        ({ source := item.path, destination := [],
           operation_type := OperationType.delete,
           result := some OperationResult.error,
           error_message := some e } :: r.1,
         r.2.1, progress :: r.2.2)
termination_by structural _ items _ _ => items

/-- `FileOperationsManager.delete_items` (like the batch loop, it starts
with `self._cancelled = False`). -/
def delete_items (cancelledBefore : Bool) (env : BatchEnv)
    (items : List FileItem) (fs : Node) :
    List OperationItem × Node × List OperationProgress :=
  let _ := cancelledBefore
  -- self._cancelled = False
  deleteLoop env items.length 0 items false fs

/-! ## `validate_filename` (`src/utils/helpers.py`) and
`create_directory` -/

/-- The `forbidden_chars = '<>:"/\\|?*'` literal of `validate_filename`. -/
def forbidden_chars : List Char := ['<', '>', ':', '"', '/', '\\', '|', '?', '*']

/-- The `forbidden_names` set of `validate_filename` (Windows reserved
device names). -/
def forbidden_names : List String :=
  ["CON", "PRN", "AUX", "NUL",
   "COM1", "COM2", "COM3", "COM4", "COM5", "COM6", "COM7", "COM8", "COM9",
   "LPT1", "LPT2", "LPT3", "LPT4", "LPT5", "LPT6", "LPT7", "LPT8", "LPT9"]

/-- `validate_filename` from `src/utils/helpers.py`: rejects the empty
name, `"."`, `".."`, names containing a forbidden character (which
include the path separators `/` and `\`), and reserved device names
(case-insensitively, via `filename.upper()`). -/
def validate_filename (filename : String) : Bool :=
  if filename = "" ∨ filename = "." ∨ filename = ".." then false
  else if filename.data.any (fun c => forbidden_chars.contains c) then false
  else if forbidden_names.contains (strUpper filename) then false
  else true

/-- Distinguishable failures of `Path.mkdir(parents=True,
exist_ok=False)`: the target itself already exists (`FileExistsError` →
the "already exists" result) versus any other OS error (a non-directory
on the path). -/
inductive MkdirErr where
  | targetExists
  | parentNotDir
deriving DecidableEq, Repr

/-- Creates every missing directory along `p` (the target is known not to
exist); fails when an existing node on the way is a file. -/
def mkdirGo : Node → FsPath → Option Node
  | node, [] => some node
  | Node.file _, _ :: _ => none
  | Node.dir ch, n :: rest =>
    match assocFind ch n with
    | some c => (mkdirGo c rest).map (fun c' => Node.dir (assocSet ch n c'))
    | none =>
      (mkdirGo (Node.dir []) rest).map (fun c' => Node.dir (assocSet ch n c'))

/-- Model of `Path.mkdir(parents=True, exist_ok=False)`: raises
`FileExistsError` when the target exists (file or directory), otherwise
creates the target and all missing parents, failing when an existing
ancestor is a file. -/
def fsMkdirParents (fs : Node) (p : FsPath) : Except MkdirErr Node :=
  if (fsLookup fs p).isSome then Except.error MkdirErr.targetExists
  else
    match mkdirGo fs p with
    | some fs' => Except.ok fs'
    | none => Except.error MkdirErr.parentNotDir

/-- `true` when every node that already exists along `p` is a directory
(the condition under which `mkdir(parents=True)` can create the missing
components). -/
def allDirsAlong : Node → FsPath → Bool
  | _, [] => true
  | Node.file _, _ :: _ => false
  | Node.dir ch, n :: rest =>
    match assocFind ch n with
    | some c => allDirsAlong c rest
    | none => true

/-- `FileOperationsManager.create_directory(path, name)`: validates the
name first and raises `FileOperationError` (the `Except.error` case)
before any filesystem access when it is invalid; otherwise attempts
`mkdir(parents=True, exist_ok=False)`, turning `FileExistsError` into an
error result with the source's literal "already exists" message and any
other failure into an error result with the OS message. -/
def create_directory (fs : Node) (path : FsPath) (name : String) :
    Except String (OperationItem × Node) :=
  if !validate_filename name then
    Except.error ("Недопустимое имя директории: " ++ name)
  else
    let new_dir_path := path ++ [name]
    match fsMkdirParents fs new_dir_path with
    | Except.ok fs' =>
      Except.ok ({ source := [], destination := new_dir_path,
                   operation_type := OperationType.create_dir,
                   result := some OperationResult.success }, fs')
    | Except.error MkdirErr.targetExists =>
      Except.ok ({ source := [], destination := new_dir_path,
                   operation_type := OperationType.create_dir,
                   result := some OperationResult.error,
                   error_message := some "Директория уже существует" }, fs)
    | Except.error MkdirErr.parentNotDir =>
      Except.ok ({ source := [], destination := new_dir_path,
                   operation_type := OperationType.create_dir,
                   result := some OperationResult.error,
                   error_message := some "Not a directory" }, fs)

/-! ## Directory listing (`FilePanel.load_directory` /
`FilePanel.refresh_files`)

Both listing implementations build the same list: optionally a synthetic
parent entry, then the stat'd children with hidden ones filtered out,
then a sort by the Python key `(not is_dir, name.lower())`.  Python's
`list.sort` is a stable sort by that (total, transitive) key, so it is
modelled by `List.insertionSort`, which is likewise stable; the theorems
below use only that the output is a sorted permutation of the input. -/

/-- The Python sort key comparison `(not x.is_dir, x.name.lower()) <=
(not y.is_dir, y.name.lower())` (lexicographic on the pair, `False <
True` on booleans, code-point order on the lowered names). -/
def panelLe (a b : FileItem) : Prop :=
  (a.is_dir && !b.is_dir) = true ∨
    (a.is_dir = b.is_dir ∧ lexLe (strLower a.name).data (strLower b.name).data = true)

instance : DecidableRel panelLe := fun a b => by
  unfold panelLe; infer_instance

/-- `FileItem.from_path` (`src/models/file_item.py`) applied to a child
of the directory `parent`: the hidden flag is
`path.name.startswith('.')`, the size is `None` for directories and the
file's payload otherwise. -/
def fileItemOfChild (parent : FsPath) (c : String × Node) : FileItem :=
  { name := c.1
    path := parent ++ [c.1]
    is_dir := match c.2 with | Node.dir _ => true | Node.file _ => false
    size := match c.2 with | Node.dir _ => none | Node.file v => some v
    is_hidden := strStartsWith c.1 "." }

/-- Modelled from the spec: `FileItem.create_parent_item` is referenced
by `load_directory` but missing from the sources; per the spec it is the
synthetic parent-directory entry `".."`, a directory that can never be
selected. -/
def create_parent_item (current : FsPath) : FileItem :=
  { name := "..", path := parentPath current, is_dir := true, size := none }

/-- The common listing pipeline: `items = [parent?] + [child for child in
children if not (child.is_hidden and not show_hidden)]` followed by
`items.sort(key=lambda x: (not x.is_dir, x.name.lower()))`. -/
def buildListing (parentOpt : Option FileItem) (show_hidden : Bool)
    (children : List FileItem) : List FileItem :=
  List.insertionSort panelLe
    (parentOpt.toList ++
      children.filter (fun c => !(c.is_hidden && !show_hidden)))

/-! ## Panel cursor and scrolling (`FilePanel._move_cursor`,
`FilePanel._ensure_selected_visible`) -/

/-- `max_rows` as computed from the file table height (`height - 3` for
header and borders, with a floor of `1`, and a default of `20` before the
first render). -/
def visibleRows (height : Int) : Int :=
  if height > 3 then max 1 (height - 3) else 20

/-- `FilePanel._ensure_selected_visible`: pull the scroll offset up or
down so the cursor row is inside the window, then floor it at `0`. -/
def ensureSelectedVisible (sel off maxRows : Int) : Int :=
  let off' :=
    if sel < off then sel
    else if sel ≥ off + maxRows then sel - maxRows + 1
    else off
  if off' < 0 then 0 else off'

/-- The cursor/scroll fragment of the panel state. -/
structure CursorState where
  selected_index : Int
  scroll_offset : Int
deriving DecidableEq, Repr

/-- `FilePanel._move_cursor(delta)`: no-op on an empty listing, otherwise
clamp `selected_index + delta` to `[0, len - 1]` and, when the index
actually moved, re-ensure visibility. -/
def moveCursor (len : Nat) (maxRows : Int) (st : CursorState) (delta : Int) :
    CursorState :=
  if len = 0 then st
  else
    let newIndex := max 0 (min ((len : Int) - 1) (st.selected_index + delta))
    if newIndex ≠ st.selected_index then
      { selected_index := newIndex
        scroll_offset := ensureSelectedVisible newIndex st.scroll_offset maxRows }
    else st

/-- A sequence of `_move_cursor` calls. -/
def moveCursorSeq (len : Nat) (maxRows : Int) (st : CursorState)
    (deltas : List Int) : CursorState :=
  deltas.foldl (moveCursor len maxRows) st

/-- The cursor is inside the scroll window. -/
def inWindow (sel off maxRows : Int) : Prop :=
  0 ≤ off ∧ off ≤ sel ∧ sel < off + maxRows

/-! ## Panel navigation (`FilePanel.load_directory`) -/

/-- The navigation-relevant fragment of the `FilePanel` state. -/
structure PanelState where
  current_path : FsPath
  show_hidden : Bool
  selected_index : Int
  scroll_offset : Int
  file_items : List FileItem
  selected_items : List Nat
deriving DecidableEq, Repr

/-- `FilePanel.load_directory(path)`, i.e. the panel's `navigate`
operation: substitute the home directory when the requested path does not
exist, fall back to the parent when it is not a directory, rebuild the
listing (synthetic `".."` entry unless at the root, hidden filter, sort),
keep the previous cursor when it is still in range and reset it to `0`
otherwise, reset the scroll offset and re-ensure cursor visibility, and
clear the multi-selection.  When even the fallback path cannot be listed
(the `iterdir` call raises and the outer `except` swallows it), only
`current_path` and the already-cleared `file_items` are updated. -/
def load_directory (fs : Node) (home : FsPath) (tableHeight : Int)
    (st : PanelState) (pathOpt : Option FsPath) : PanelState :=
  let p0 := pathOpt.getD st.current_path
  let p1 := if (fsLookup fs p0).isNone then home else p0
  let p2 :=
    match fsLookup fs p1 with
    | some (Node.dir _) => p1
    | _ => parentPath p1
  match fsLookup fs p2 with
  | some (Node.dir ch) =>
    let parentOpt :=
      if p2 ≠ ([] : FsPath) then some (create_parent_item p2) else none
    let items := buildListing parentOpt st.show_hidden
      (ch.map (fileItemOfChild p2))
    let sel :=
      if 0 ≤ st.selected_index ∧ st.selected_index < items.length then
        st.selected_index
      else 0
    let off := ensureSelectedVisible sel 0 (visibleRows tableHeight)
    { st with current_path := p2, file_items := items,
              selected_index := sel, scroll_offset := off,
              selected_items := [] }
  | _ => { st with current_path := p2, file_items := [] }

/-! # Theorems -/

/-! ## Decimal representation -/

theorem digitChar_toNat {d : Nat} (h : d < 10) : (digitChar d).toNat = 48 + d := by
  interval_cases d <;> decide

theorem decVal_singleton (c : Char) : decVal [c] = c.toNat - 48 := by
  simp [decVal]

theorem decVal_append_singleton (l : List Char) (c : Char) :
    decVal (l ++ [c]) = decVal l * 10 + (c.toNat - 48) := by
  simp [decVal, List.foldl_append]

theorem decDigitsAux_val : ∀ {fuel n : Nat}, n < fuel →
    decVal (decDigitsAux fuel n) = n := by
  intro fuel
  induction fuel with
  | zero => intro n h; omega
  | succ fuel ih =>
    intro n h
    rw [decDigitsAux]
    by_cases h10 : n < 10
    · rw [if_pos h10, decVal_singleton, digitChar_toNat h10]
      omega
    · rw [if_neg h10, decVal_append_singleton, ih (by omega),
        digitChar_toNat (Nat.mod_lt n (by omega))]
      omega

theorem decVal_decRepr (n : Nat) : decVal (decRepr n).data = n :=
  decDigitsAux_val (Nat.lt_succ_self n)

theorem decRepr_injective : Function.Injective decRepr := by
  intro m n h
  have h' := congrArg (fun s => decVal s.data) h
  simpa [decVal_decRepr] using h'

/-! ## Rename-on-conflict: `_get_unique_name` (claim C3) -/

theorem uniqueCandidate_injective (stem suffix : String) :
    Function.Injective (uniqueCandidate stem suffix) := by
  intro m n h
  have hd := congrArg String.data h
  simp only [uniqueCandidate, String.data_append, List.append_assoc] at hd
  have hd₁ := List.append_cancel_left hd
  have hd₂ := List.append_cancel_left hd₁
  rw [← List.append_assoc, ← List.append_assoc] at hd₂
  have hd₃ := List.append_cancel_right hd₂
  apply decRepr_injective
  apply String.ext
  exact List.append_cancel_right hd₃

theorem uniqueCandidates_escape (existing : List String) (stem suffix : String) :
    ∃ j, j < existing.length + 1 ∧
      uniqueCandidate stem suffix (1 + j) ∉ existing := by
  by_contra hall
  push_neg at hall
  have hinj : Function.Injective (fun j : Nat => uniqueCandidate stem suffix (1 + j)) := by
    intro a b hab
    have := uniqueCandidate_injective stem suffix hab
    omega
  have hnd : ((List.range (existing.length + 1)).map
      (fun j => uniqueCandidate stem suffix (1 + j))).Nodup :=
    List.Nodup.map hinj (List.nodup_range _)
  have hsub : ((List.range (existing.length + 1)).map
      (fun j => uniqueCandidate stem suffix (1 + j))) ⊆ existing := by
    intro x hx
    simp only [List.mem_map, List.mem_range] at hx
    obtain ⟨j, hj, rfl⟩ := hx
    exact hall j hj
  have hlen := (List.subperm_of_subset hnd hsub).length_le
  simp at hlen

theorem uniqueNameLoop_isSome {existing : List String} {stem suffix : String} :
    ∀ {fuel counter : Nat},
      (∃ j, j < fuel ∧ uniqueCandidate stem suffix (counter + j) ∉ existing) →
      (uniqueNameLoop existing stem suffix fuel counter).isSome = true := by
  intro fuel
  induction fuel with
  | zero => intro counter h; obtain ⟨j, hj, _⟩ := h; omega
  | succ fuel ih =>
    intro counter h
    rw [uniqueNameLoop]
    by_cases hc : uniqueCandidate stem suffix counter ∈ existing
    · simp only [hc, if_pos, if_true]
      apply ih
      obtain ⟨j, hj, hout⟩ := h
      match j, hj, hout with
      | 0, _, hout => exact absurd hc hout
      | j' + 1, hj, hout =>
        exact ⟨j', by omega, by
          have : counter + 1 + j' = counter + (j' + 1) := by omega
          rw [this]; exact hout⟩
    · simp [hc]

theorem uniqueNameLoop_spec {existing : List String} {stem suffix : String} :
    ∀ {fuel counter : Nat} {name : String},
      uniqueNameLoop existing stem suffix fuel counter = some name →
      name ∉ existing ∧ ∃ j, name = uniqueCandidate stem suffix (counter + j) ∧
        ∀ k, k < j → uniqueCandidate stem suffix (counter + k) ∈ existing := by
  intro fuel
  induction fuel with
  | zero => intro counter name h; exact absurd h (by simp [uniqueNameLoop])
  | succ fuel ih =>
    intro counter name h
    rw [uniqueNameLoop] at h
    by_cases hc : uniqueCandidate stem suffix counter ∈ existing
    · rw [if_pos hc] at h
      obtain ⟨hout, j', hj', hmin⟩ := ih h
      refine ⟨hout, j' + 1, by
        have : counter + (j' + 1) = counter + 1 + j' := by omega
        rw [this]; exact hj', ?_⟩
      intro k hk
      match k, hk with
      | 0, _ => simpa using hc
      | k' + 1, hk =>
        have : counter + (k' + 1) = counter + 1 + k' := by omega
        rw [this]; exact hmin k' (by omega)
    · rw [if_neg hc] at h
      refine ⟨?_, 0, ?_, by omega⟩
      · cases h; simpa using hc
      · cases h; simp

theorem uniqueNameFrom_spec (existing : List String) (stem suffix : String) :
    uniqueNameFrom existing stem suffix ∉ existing ∧
    ∃ N, 1 ≤ N ∧
      uniqueNameFrom existing stem suffix = uniqueCandidate stem suffix N ∧
      ∀ k, 1 ≤ k → k < N → uniqueCandidate stem suffix k ∈ existing := by
  have hex : ∃ j, j < existing.length + 1 ∧
      uniqueCandidate stem suffix (1 + j) ∉ existing :=
    uniqueCandidates_escape existing stem suffix
  have hsome := @uniqueNameLoop_isSome existing stem suffix
    (existing.length + 1) 1 hex
  obtain ⟨name, hname⟩ := Option.isSome_iff_exists.mp hsome
  have heq : uniqueNameFrom existing stem suffix = name := by
    rw [uniqueNameFrom, hname]; rfl
  obtain ⟨hout, j, hj, hmin⟩ := uniqueNameLoop_spec hname
  refine ⟨heq ▸ hout, 1 + j, by omega, by rw [heq]; exact hj, ?_⟩
  intro k hk1 hkj
  have : k = 1 + (k - 1) := by omega
  rw [this]
  exact hmin (k - 1) (by omega)

/-! ## Filesystem lemmas -/

theorem assocFind_eq_none {ch : List (String × Node)} {n : String}
    (h : n ∉ ch.map Prod.fst) : assocFind ch n = none := by
  induction ch with
  | nil => rfl
  | cons e rest ih =>
    rw [assocFind]
    simp only [List.map_cons, List.mem_cons] at h
    push_neg at h
    rw [if_neg (fun he => h.1 he.symm)]
    exact ih h.2

theorem fsLookup_append_singleton (fs : Node) (p : FsPath) (n : String) :
    fsLookup fs (p ++ [n]) =
      match fsLookup fs p with
      | some (Node.dir ch) => assocFind ch n
      | _ => none := by
  induction p generalizing fs with
  | nil =>
    cases fs with
    | file v => simp [fsLookup]
    | dir ch => simp [fsLookup]; cases assocFind ch n <;> simp [fsLookup]
  | cons m rest ih =>
    cases fs with
    | file v => simp [fsLookup]
    | dir ch =>
      rw [List.cons_append, fsLookup, fsLookup]
      cases assocFind ch m with
      | none => rfl
      | some c => exact ih c

/-- **C3.** `_get_unique_name` deterministically returns
`parent / (stem + " (N)" + suffix)` for the least `N ≥ 1` whose candidate
does not exist in the destination directory: the chosen name is absent
from the destination directory at decision time, and every earlier
candidate `" (k)"`, `1 ≤ k < N`, collides with an existing sibling (so
the first collision yields `" (1)"`, the next `" (2)"`, and so on). -/
theorem get_unique_name_spec (fs : Node) (path : FsPath) :
    ∃ N, 1 ≤ N ∧
      get_unique_name fs path = parentPath path ++
        [(splitStemSuffix (lastName path)).1 ++ " (" ++ decRepr N ++ ")" ++
          (splitStemSuffix (lastName path)).2] ∧
      (fsLookup fs (get_unique_name fs path)).isSome = false ∧
      (∀ k, 1 ≤ k → k < N →
        (splitStemSuffix (lastName path)).1 ++ " (" ++ decRepr k ++ ")" ++
          (splitStemSuffix (lastName path)).2 ∈
            dirChildNames fs (parentPath path)) := by
  obtain ⟨hout, N, hN1, heq, hmin⟩ :=
    uniqueNameFrom_spec (dirChildNames fs (parentPath path))
      (splitStemSuffix (lastName path)).1 (splitStemSuffix (lastName path)).2
  refine ⟨N, hN1, ?_, ?_, hmin⟩
  · rw [get_unique_name]
    rw [heq]
    rfl
  · rw [get_unique_name]
    rw [fsLookup_append_singleton]
    cases hfs : fsLookup fs (parentPath path) with
    | none => simp
    | some node =>
      cases node with
      | file v => simp
      | dir ch =>
        simp only
        have hdn : dirChildNames fs (parentPath path) = ch.map Prod.fst := by
          rw [dirChildNames, hfs]
        rw [assocFind_eq_none]
        · simp
        · rw [← hdn]
          exact hout

/-! ## Cancellation and result-prefix structure of the batch loops
(claim C1) -/

theorem execOne_spec (op : OperationType) (fault : Option String)
    (item : FileItem) (fs : Node) (bytes : Nat) (dest : FsPath) :
    (execOne op fault item fs bytes dest).1.source = item.path ∧
    (execOne op fault item fs bytes dest).1.result.isSome = true := by
  rw [execOne]
  cases runSingle op fault fs item.path dest <;> simp

theorem processItem_some_spec {resolver : Option (Nat → String)}
    {env : BatchEnv} {destDir : FsPath} {op : OperationType} {i : Nat}
    {item : FileItem} {fs : Node} {bytes : Nat}
    {o : OperationItem} {fs' : Node} {b' : Nat}
    (h : processItem resolver env destDir op i item fs bytes = some (o, fs', b')) :
    o.source = item.path ∧ o.result.isSome = true := by
  have hexec : ∀ dest : FsPath,
      execOne op (env.fault i) item fs bytes dest = (o, fs', b') →
      o.source = item.path ∧ o.result.isSome = true := by
    intro dest hsome
    have := execOne_spec op (env.fault i) item fs bytes dest
    rw [hsome] at this
    exact this
  rcases resolver with _ | res
  · exact hexec _ (by injection h)
  · delta processItem at h
    cases hc : (fsLookup fs (destDir ++ [item.name])).isSome with
    | false =>
      rw [hc] at h
      exact hexec _ (by injection h)
    | true =>
      rw [hc] at h
      dsimp only at h
      by_cases h1 : res i = "cancel"
      · rw [if_pos h1] at h; cases h
      · rw [if_neg h1] at h
        by_cases h2 : res i = "skip"
        · rw [if_pos h2] at h
          injection h with h
          injection h with h1 h2
          injection h2 with h2 h3
          rw [← h1]
          simp
        · rw [if_neg h2] at h
          by_cases h3 : res i = "rename"
          · rw [if_pos h3] at h
            exact hexec _ (by injection h)
          · rw [if_neg h3] at h
            exact hexec _ (by injection h)

theorem execBatchLoop_prefix (resolver : Option (Nat → String))
    (env : BatchEnv) (destDir : FsPath) (op : OperationType) (tI tB : Nat) :
    ∀ (items : List FileItem) (i : Nat) (fs : Node) (bytes : Nat),
      ∃ k, k ≤ items.length ∧
        (execBatchLoop resolver env destDir op tI tB i items false fs bytes).1.length = k ∧
        List.Forall₂ (fun it r => r.source = it.path ∧ r.result.isSome = true)
          (items.take k)
          (execBatchLoop resolver env destDir op tI tB i items false fs bytes).1 ∧
        ∀ j, j < items.length → env.externalCancel (i + j) = true → k ≤ j := by
  intro items
  induction items with
  | nil =>
    intro i fs bytes
    exact ⟨0, by simp [execBatchLoop], by simp [execBatchLoop],
      by simp [execBatchLoop], by omega⟩
  | cons item rest ih =>
    intro i fs bytes
    rw [execBatchLoop]
    simp only [Bool.false_or]
    cases hec : env.externalCancel i with
    | true =>
      refine ⟨0, by omega, by simp, by simp, by omega⟩
    | false =>
      simp only [Bool.false_eq_true, if_false]
      cases hpi : processItem resolver env destDir op i item fs bytes with
      | none =>
        refine ⟨0, by omega, by simp, by simp, by omega⟩
      | some triple =>
        obtain ⟨o, fs', b'⟩ := triple
        obtain ⟨k', hk'le, hlen, hfa, hcan⟩ := ih (i + 1) fs' b'
        refine ⟨k' + 1, by simpa using hk'le, by simpa using hlen, ?_, ?_⟩
        · rw [List.take_succ_cons]
          exact List.Forall₂.cons (processItem_some_spec hpi) hfa
        · intro j hj hecj
          match j with
          | 0 => rw [Nat.add_zero] at hecj; rw [hec] at hecj; cases hecj
          | j' + 1 =>
            have : i + (j' + 1) = (i + 1) + j' := by omega
            rw [this] at hecj
            have := hcan j' (by simpa using hj) hecj
            omega

theorem deleteLoop_prefix (env : BatchEnv) (tI : Nat) :
    ∀ (items : List FileItem) (i : Nat) (fs : Node),
      ∃ k, k ≤ items.length ∧
        (deleteLoop env tI i items false fs).1.length = k ∧
        List.Forall₂ (fun it r => r.source = it.path ∧ r.result.isSome = true)
          (items.take k) (deleteLoop env tI i items false fs).1 ∧
        ∀ j, j < items.length → env.externalCancel (i + j) = true → k ≤ j := by
  intro items
  induction items with
  | nil =>
    intro i fs
    exact ⟨0, by simp [deleteLoop], by simp [deleteLoop],
      by simp [deleteLoop], by omega⟩
  | cons item rest ih =>
    intro i fs
    rw [deleteLoop]
    simp only [Bool.false_or]
    cases hec : env.externalCancel i with
    | true =>
      refine ⟨0, by omega, by simp, by simp, by omega⟩
    | false =>
      simp only [Bool.false_eq_true, if_false]
      have hstep : ∀ (fs' : Node) (o : OperationItem),
          o.source = item.path → o.result.isSome = true →
          ∃ k, k ≤ rest.length + 1 ∧
            (o :: (deleteLoop env tI (i + 1) rest false fs').1).length = k ∧
            List.Forall₂ (fun it r => r.source = it.path ∧ r.result.isSome = true)
              ((item :: rest).take k)
              (o :: (deleteLoop env tI (i + 1) rest false fs').1) ∧
            ∀ j, j < rest.length + 1 → env.externalCancel (i + j) = true → k ≤ j := by
        intro fs' o hsrc hres
        obtain ⟨k', hk'le, hlen, hfa, hcan⟩ := ih (i + 1) fs'
        refine ⟨k' + 1, by omega, by simpa using hlen, ?_, ?_⟩
        · rw [List.take_succ_cons]
          exact List.Forall₂.cons ⟨hsrc, hres⟩ hfa
        · intro j hj hecj
          match j with
          | 0 => rw [Nat.add_zero] at hecj; rw [hec] at hecj; cases hecj
          | j' + 1 =>
            have : i + (j' + 1) = (i + 1) + j' := by omega
            rw [this] at hecj
            have := hcan j' (by omega) hecj
            omega
      cases hda : deleteAttempt (env.fault i) fs item.path with
      | ok fs' =>
        have := hstep fs'
          { source := item.path, destination := [],
            operation_type := OperationType.delete,
            result := some OperationResult.success } rfl rfl
        simpa using this
      | error e =>
        have := hstep fs
          { source := item.path, destination := [],
            operation_type := OperationType.delete,
            result := some OperationResult.error,
            error_message := some e } rfl rfl
        simpa using this

/-- **C1.** Every batch call (`copy_items`, `move_items`, `delete_items`)
resets the cancellation flag at entry — the result is independent of the
manager's previous `_cancelled` value — and the flag is checked before
starting each item: the returned result list is an in-order prefix of the
input items in which every recorded item has a terminal result, its
length never exceeds the input length, and whenever the flag is observed
set before item `j` at most `j` items are recorded (no item at or after
the cancel point gets an entry). -/
theorem batch_cancellation_spec :
    (∀ c₁ c₂ resolver env items destDir fs,
      copy_items c₁ resolver env items destDir fs =
        copy_items c₂ resolver env items destDir fs ∧
      move_items c₁ resolver env items destDir fs =
        move_items c₂ resolver env items destDir fs) ∧
    (∀ c₁ c₂ env items fs,
      delete_items c₁ env items fs = delete_items c₂ env items fs) ∧
    (∀ c resolver env items destDir op fs,
      ∃ k, k ≤ items.length ∧
        (execBatchOperation c resolver env items destDir op fs).1.length = k ∧
        List.Forall₂ (fun it r => r.source = it.path ∧ r.result.isSome = true)
          (items.take k)
          (execBatchOperation c resolver env items destDir op fs).1 ∧
        ∀ j, j < items.length → env.externalCancel j = true → k ≤ j) ∧
    (∀ c env items fs,
      ∃ k, k ≤ items.length ∧
        (delete_items c env items fs).1.length = k ∧
        List.Forall₂ (fun it r => r.source = it.path ∧ r.result.isSome = true)
          (items.take k) (delete_items c env items fs).1 ∧
        ∀ j, j < items.length → env.externalCancel j = true → k ≤ j) := by
  refine ⟨fun _ _ _ _ _ _ _ => ⟨rfl, rfl⟩, fun _ _ _ _ _ => rfl, ?_, ?_⟩
  · intro c resolver env items destDir op fs
    obtain ⟨k, hle, hlen, hfa, hcan⟩ :=
      execBatchLoop_prefix resolver env destDir op items.length
        (totalBytesOf items) items 0 fs 0
    exact ⟨k, hle, hlen, hfa, fun j hj hec =>
      hcan j hj (by simpa using hec)⟩
  · intro c env items fs
    obtain ⟨k, hle, hlen, hfa, hcan⟩ :=
      deleteLoop_prefix env items.length items 0 fs
    exact ⟨k, hle, hlen, hfa, fun j hj hec =>
      hcan j hj (by simpa using hec)⟩

/-! ## Missing resolver defaults to overwrite (claim C10) -/

theorem processItem_none_eq_overwrite (env : BatchEnv) (destDir : FsPath)
    (op : OperationType) (i : Nat) (item : FileItem) (fs : Node)
    (bytes : Nat) :
    processItem none env destDir op i item fs bytes =
      processItem (some fun _ => "overwrite") env destDir op i item fs bytes := by
  delta processItem
  cases hc : (fsLookup fs (destDir ++ [item.name])).isSome with
  | false => rfl
  | true =>
    dsimp only
    rw [if_neg (by decide), if_neg (by decide), if_neg (by decide)]

theorem execBatchLoop_none_eq_overwrite (env : BatchEnv) (destDir : FsPath)
    (op : OperationType) (tI tB : Nat) :
    ∀ (items : List FileItem) (i : Nat) (cancelled : Bool) (fs : Node)
      (bytes : Nat),
      execBatchLoop none env destDir op tI tB i items cancelled fs bytes =
        execBatchLoop (some fun _ => "overwrite") env destDir op tI tB
          i items cancelled fs bytes := by
  intro items
  induction items with
  | nil => intro i c fs b; rfl
  | cons item rest ih =>
    intro i c fs b
    simp only [execBatchLoop]
    rw [processItem_none_eq_overwrite]
    simp only [ih]

/-- **C10.** With no conflict resolver configured (`conflict_resolver is
None`, the constructor default), `copy_items` and `move_items` behave
exactly as if a resolver answering `'overwrite'` for every prompt were
installed: colliding destinations are silently replaced/merged, with no
skip, rename or cancel opportunity. -/
theorem no_resolver_defaults_to_overwrite :
    ∀ c env items destDir fs,
      copy_items c none env items destDir fs =
        copy_items c (some fun _ => "overwrite") env items destDir fs ∧
      move_items c none env items destDir fs =
        move_items c (some fun _ => "overwrite") env items destDir fs := by
  intro c env items destDir fs
  exact ⟨execBatchLoop_none_eq_overwrite env destDir OperationType.copy
      items.length (totalBytesOf items) items 0 false fs 0,
    execBatchLoop_none_eq_overwrite env destDir OperationType.move
      items.length (totalBytesOf items) items 0 false fs 0⟩

/-! ## Skip resolution (claim C2) -/

theorem processItem_skip {res : Nat → String} (env : BatchEnv)
    {destDir : FsPath} {op : OperationType} {i : Nat} {item : FileItem}
    {fs : Node} {bytes : Nat}
    (hconflict : (fsLookup fs (destDir ++ [item.name])).isSome = true)
    (hskip : res i = "skip") :
    processItem (some res) env destDir op i item fs bytes =
      some ({ source := item.path, destination := destDir ++ [item.name],
              operation_type := op,
              result := some OperationResult.skipped,
              error_message := none }, fs, bytes) := by
  delta processItem
  rw [hconflict]
  dsimp only
  rw [if_neg (by rw [hskip]; decide), if_pos hskip]

/-- **C2.** When an item's destination exists and the resolver answers
`'skip'`, the engine records an `OperationItem` with `result = skipped`
for that item — leaving the filesystem untouched — and continues with the
next item; and the concrete 3-file scenario (only file #2's destination
exists, resolver always skips) yields results
`[success, skipped, success]` with exactly the two non-conflicting files
written to the destination directory. -/
theorem skip_records_and_continues :
    (∀ (res : Nat → String) (env : BatchEnv) (destDir : FsPath)
       (op : OperationType) (tI tB i : Nat) (item : FileItem)
       (rest : List FileItem) (fs : Node) (bytes : Nat),
      env.externalCancel i = false →
      (fsLookup fs (destDir ++ [item.name])).isSome = true →
      res i = "skip" →
      execBatchLoop (some res) env destDir op tI tB i (item :: rest)
          false fs bytes =
        (({ source := item.path, destination := destDir ++ [item.name],
            operation_type := op, result := some OperationResult.skipped,
            error_message := none } : OperationItem) ::
           (execBatchLoop (some res) env destDir op tI tB (i + 1) rest
             false fs bytes).1,
         (execBatchLoop (some res) env destDir op tI tB (i + 1) rest
           false fs bytes).2.1,
         (⟨i + 1, tI, bytes, tB, pathToString item.path, op⟩ :
             OperationProgress) ::
           (execBatchLoop (some res) env destDir op tI tB (i + 1) rest
             false fs bytes).2.2)) ∧
    (copy_items false (some fun _ => "skip") ⟨fun _ => none, fun _ => false⟩
        [⟨"f1", ["src", "f1"], false, some 11, false⟩,
         ⟨"f2", ["src", "f2"], false, some 12, false⟩,
         ⟨"f3", ["src", "f3"], false, some 13, false⟩]
        ["dst"]
        (Node.dir
          [("src", Node.dir
             [("f1", Node.file 11), ("f2", Node.file 12),
              ("f3", Node.file 13)]),
           ("dst", Node.dir [("f2", Node.file 99)])])).1.map
        (fun r => r.result) =
      [some OperationResult.success, some OperationResult.skipped,
       some OperationResult.success] ∧
    (copy_items false (some fun _ => "skip") ⟨fun _ => none, fun _ => false⟩
        [⟨"f1", ["src", "f1"], false, some 11, false⟩,
         ⟨"f2", ["src", "f2"], false, some 12, false⟩,
         ⟨"f3", ["src", "f3"], false, some 13, false⟩]
        ["dst"]
        (Node.dir
          [("src", Node.dir
             [("f1", Node.file 11), ("f2", Node.file 12),
              ("f3", Node.file 13)]),
           ("dst", Node.dir [("f2", Node.file 99)])])).2.1 =
      Node.dir
        [("src", Node.dir
           [("f1", Node.file 11), ("f2", Node.file 12),
            ("f3", Node.file 13)]),
         ("dst", Node.dir
           [("f2", Node.file 99), ("f1", Node.file 11),
            ("f3", Node.file 13)])] := by
  refine ⟨?_, by rfl, by rfl⟩
  intro res env destDir op tI tB i item rest fs bytes hec hconflict hskip
  simp only [execBatchLoop, Bool.false_or, hec, if_false]
  rw [processItem_skip env hconflict hskip]
  rfl

/-! ## Per-item error isolation in `delete_items` (claim C5) -/

theorem deleteErrorMsg_ne_empty (path : FsPath) (m : String) :
    deleteErrorMsg path m ≠ "" := by
  intro h
  have hd := congrArg (fun s => s.data.length) h
  simp only [deleteErrorMsg, String.data_append, List.length_append] at hd
  have h16 : ("Ошибка удаления " : String).data.length = 16 := by decide
  have h0 : ("" : String).data.length = 0 := by decide
  rw [h16, h0] at hd
  omega

theorem deleteLoop_all_processed (env : BatchEnv) (tI : Nat)
    (hnc : ∀ j, env.externalCancel j = false) :
    ∀ (items : List FileItem) (i : Nat) (fs : Node),
      List.Forall₂
        (fun it r => r.source = it.path ∧
          r.operation_type = OperationType.delete ∧ r.result.isSome = true)
        items (deleteLoop env tI i items false fs).1 := by
  intro items
  induction items with
  | nil => intro i fs; simp [deleteLoop]
  | cons item rest ih =>
    intro i fs
    rw [deleteLoop]
    simp only [Bool.false_or, hnc i, Bool.false_eq_true, if_false]
    cases deleteAttempt (env.fault i) fs item.path with
    | ok fs' => exact List.Forall₂.cons ⟨rfl, rfl, rfl⟩ (ih (i + 1) fs')
    | error e => exact List.Forall₂.cons ⟨rfl, rfl, rfl⟩ (ih (i + 1) fs)

/-- **C5.** `delete_items` processes every input item in order with
per-item error isolation: an item whose delete raises has an
`OperationItem` with `result = error` and the (never empty) wrapped
message recorded, and the loop continues with the remaining items on the
unchanged filesystem; with no external cancellation the result list pairs
the input list in order.  The concrete 5-item scenario where item #3
raises a permission error yields exactly 5 entries with entry #3 `error`
(non-empty message) and the rest `success`. -/
theorem delete_items_error_isolation :
    (∀ (env : BatchEnv) (tI i : Nat) (item : FileItem)
       (rest : List FileItem) (fs : Node) (m : String),
      env.externalCancel i = false → env.fault i = some m →
      deleteLoop env tI i (item :: rest) false fs =
        (({ source := item.path, destination := [],
            operation_type := OperationType.delete,
            result := some OperationResult.error,
            error_message := some (deleteErrorMsg item.path m) } :
              OperationItem) ::
           (deleteLoop env tI (i + 1) rest false fs).1,
         (deleteLoop env tI (i + 1) rest false fs).2.1,
         (⟨i + 1, tI, 0, 0, pathToString item.path, OperationType.delete⟩ :
             OperationProgress) ::
           (deleteLoop env tI (i + 1) rest false fs).2.2)) ∧
    (∀ path m, deleteErrorMsg path m ≠ "") ∧
    (∀ c env items fs, (∀ j, env.externalCancel j = false) →
      List.Forall₂
        (fun (it : FileItem) (r : OperationItem) => r.source = it.path ∧
          r.operation_type = OperationType.delete ∧ r.result.isSome = true)
        items (delete_items c env items fs).1) ∧
    (delete_items false
        ⟨fun i => if i = 2 then some "Permission denied" else none,
         fun _ => false⟩
        [⟨"a", ["a"], false, some 1, false⟩, ⟨"b", ["b"], false, some 2, false⟩,
         ⟨"c", ["c"], false, some 3, false⟩, ⟨"d", ["d"], false, some 4, false⟩,
         ⟨"e", ["e"], false, some 5, false⟩]
        (Node.dir
          [("a", Node.file 1), ("b", Node.file 2), ("c", Node.file 3),
           ("d", Node.file 4), ("e", Node.file 5)])).1.map
        (fun r => (r.result, r.error_message)) =
      [(some OperationResult.success, none), (some OperationResult.success, none),
       (some OperationResult.error, some "Ошибка удаления /c: Permission denied"),
       (some OperationResult.success, none),
       (some OperationResult.success, none)] ∧
    (delete_items false
        ⟨fun i => if i = 2 then some "Permission denied" else none,
         fun _ => false⟩
        [⟨"a", ["a"], false, some 1, false⟩, ⟨"b", ["b"], false, some 2, false⟩,
         ⟨"c", ["c"], false, some 3, false⟩, ⟨"d", ["d"], false, some 4, false⟩,
         ⟨"e", ["e"], false, some 5, false⟩]
        (Node.dir
          [("a", Node.file 1), ("b", Node.file 2), ("c", Node.file 3),
           ("d", Node.file 4), ("e", Node.file 5)])).2.1 =
      Node.dir [("c", Node.file 3)] := by
  refine ⟨?_, deleteErrorMsg_ne_empty, ?_, by rfl, by rfl⟩
  · intro env tI i item rest fs m hec hm
    rw [deleteLoop]
    simp only [Bool.false_or, hec, Bool.false_eq_true, if_false]
    rw [hm]
    rfl
  · intro c env items fs hnc
    exact deleteLoop_all_processed env items.length hnc items 0 fs

/-! ## `create_directory` and name validation (claim C6) -/

theorem assocFind_cons (m : String) (w : Node) (rest : List (String × Node))
    (n : String) :
    assocFind ((m, w) :: rest) n =
      if m = n then some w else assocFind rest n := rfl

theorem assocSet_cons (m : String) (w : Node) (rest : List (String × Node))
    (n : String) (v : Node) :
    assocSet ((m, w) :: rest) n v =
      if m = n then (m, v) :: rest else (m, w) :: assocSet rest n v := rfl

theorem assocFind_assocSet_self (ch : List (String × Node)) (n : String)
    (v : Node) : assocFind (assocSet ch n v) n = some v := by
  induction ch with
  | nil => simp [assocSet, assocFind]
  | cons e rest ih =>
    obtain ⟨m, w⟩ := e
    rw [assocSet_cons]
    by_cases h : m = n
    · rw [if_pos h, assocFind_cons, if_pos h]
    · rw [if_neg h, assocFind_cons, if_neg h]
      exact ih

theorem fsLookup_dir_cons (ch : List (String × Node)) (n : String)
    (rest : FsPath) :
    fsLookup (Node.dir ch) (n :: rest) =
      match assocFind ch n with
      | some c => fsLookup c rest
      | none => none := rfl

theorem mkdirGo_dir_cons (ch : List (String × Node)) (n : String)
    (rest : FsPath) :
    mkdirGo (Node.dir ch) (n :: rest) =
      match assocFind ch n with
      | some c => (mkdirGo c rest).map (fun c' => Node.dir (assocSet ch n c'))
      | none =>
        (mkdirGo (Node.dir []) rest).map
          (fun c' => Node.dir (assocSet ch n c')) := rfl

theorem allDirsAlong_dir_cons (ch : List (String × Node)) (n : String)
    (rest : FsPath) :
    allDirsAlong (Node.dir ch) (n :: rest) =
      match assocFind ch n with
      | some c => allDirsAlong c rest
      | none => true := rfl

theorem mkdirGo_fresh : ∀ (p : FsPath),
    ∃ g, mkdirGo (Node.dir []) p = some g ∧
      fsLookup g p = some (Node.dir []) := by
  intro p
  induction p with
  | nil => exact ⟨Node.dir [], rfl, rfl⟩
  | cons n rest ih =>
    obtain ⟨g, hg, hlook⟩ := ih
    refine ⟨Node.dir (assocSet [] n g), ?_, ?_⟩
    · rw [mkdirGo_dir_cons]
      show (mkdirGo (Node.dir []) rest).map
        (fun c' => Node.dir (assocSet [] n c')) = _
      rw [hg]
      rfl
    · rw [fsLookup_dir_cons, assocFind_assocSet_self]
      exact hlook

theorem mkdirGo_spec : ∀ (p : FsPath) (fs : Node),
    allDirsAlong fs p = true → fsLookup fs p = none →
    ∃ fs', mkdirGo fs p = some fs' ∧
      fsLookup fs' p = some (Node.dir []) := by
  intro p
  induction p with
  | nil => intro fs _ hlook; simp [fsLookup] at hlook
  | cons n rest ih =>
    intro fs hdirs hlook
    cases fs with
    | file v => cases hdirs
    | dir ch =>
      rw [allDirsAlong_dir_cons] at hdirs
      rw [fsLookup_dir_cons] at hlook
      rw [mkdirGo_dir_cons]
      cases hfind : assocFind ch n with
      | some c =>
        rw [hfind] at hdirs hlook
        dsimp only at hdirs hlook ⊢
        cases rest with
        | nil => simp [fsLookup] at hlook
        | cons r rs =>
          obtain ⟨c', hc', hlook'⟩ := ih c hdirs hlook
          refine ⟨Node.dir (assocSet ch n c'), ?_, ?_⟩
          · rw [hc']; rfl
          · rw [fsLookup_dir_cons, assocFind_assocSet_self]
            exact hlook'
      | none =>
        dsimp only
        obtain ⟨g, hg, hlookg⟩ := mkdirGo_fresh rest
        refine ⟨Node.dir (assocSet ch n g), ?_, ?_⟩
        · rw [hg]; rfl
        · rw [fsLookup_dir_cons, assocFind_assocSet_self]
          exact hlookg

/-- **C6.** `create_directory(parent, name)` validates the name first and
raises (`Except.error`, with no filesystem effect — the result does not
depend on the filesystem at all) exactly when `validate_filename`
rejects it, which happens exactly for the empty name, `"."`, `".."`,
names containing a forbidden character (among them the path separators
`/` and `\`), or platform-reserved device names such as `CON`/`COM1`
(case-insensitively); when validation passes but the target exists it
returns an `OperationItem` with `result = error` and the source's
"already exists" message (`"Директория уже существует"`), leaving the
filesystem unchanged; otherwise it creates the directory together with
missing parents (provided no existing node along the way is a file) and
returns `result = success`. -/
theorem create_directory_spec :
    (∀ name, validate_filename name = false ↔
      (name = "" ∨ name = "." ∨ name = ".." ∨
        (∃ c ∈ name.data, c ∈ forbidden_chars) ∨
        strUpper name ∈ forbidden_names)) ∧
    (validate_filename "CON" = false ∧ validate_filename "COM1" = false ∧
      validate_filename "con" = false ∧ validate_filename "a/b" = false ∧
      validate_filename "a\\b" = false ∧ validate_filename "ok.txt" = true) ∧
    (∀ fs path name, validate_filename name = false →
      create_directory fs path name =
        Except.error ("Недопустимое имя директории: " ++ name)) ∧
    (∀ fs path name, validate_filename name = true →
      (fsLookup fs (path ++ [name])).isSome = true →
      create_directory fs path name =
        Except.ok ({ source := [], destination := path ++ [name],
                     operation_type := OperationType.create_dir,
                     result := some OperationResult.error,
                     error_message := some "Директория уже существует" },
                   fs)) ∧
    (∀ fs path name, validate_filename name = true →
      fsLookup fs (path ++ [name]) = none →
      allDirsAlong fs (path ++ [name]) = true →
      ∃ fs', create_directory fs path name =
          Except.ok ({ source := [], destination := path ++ [name],
                       operation_type := OperationType.create_dir,
                       result := some OperationResult.success,
                       error_message := none }, fs') ∧
        fsLookup fs' (path ++ [name]) = some (Node.dir [])) := by
  refine ⟨?_, by decide, ?_, ?_, ?_⟩
  · intro name
    have hforb : ∀ c, forbidden_chars.contains c = true ↔ c ∈ forbidden_chars :=
      fun c => List.elem_iff
    have hnames : forbidden_names.contains (strUpper name) = true ↔
        strUpper name ∈ forbidden_names := List.elem_iff
    rw [validate_filename]
    by_cases h1 : name = "" ∨ name = "." ∨ name = ".."
    · rw [if_pos h1]
      simp only [eq_self_iff_true, true_iff]
      tauto
    · rw [if_neg h1]
      by_cases h2 : name.data.any (fun c => forbidden_chars.contains c) = true
      · rw [if_pos h2]
        rw [List.any_eq_true] at h2
        obtain ⟨c, hc, hcf⟩ := h2
        simp only [eq_self_iff_true, true_iff]
        exact Or.inr (Or.inr (Or.inr (Or.inl ⟨c, hc, (hforb c).mp hcf⟩)))
      · rw [if_neg h2]
        rw [List.any_eq_true] at h2
        push_neg at h2
        by_cases h3 : forbidden_names.contains (strUpper name) = true
        · rw [if_pos h3]
          simp only [eq_self_iff_true, true_iff]
          exact Or.inr (Or.inr (Or.inr (Or.inr (hnames.mp h3))))
        · rw [if_neg h3]
          simp only [Bool.true_eq_false, false_iff]
          push_neg at h1
          intro hcontra
          rcases hcontra with h | h | h | ⟨c, hc, hcf⟩ | h
          · exact h1.1 h
          · exact h1.2.1 h
          · exact h1.2.2 h
          · exact (h2 c hc) ((hforb c).mpr hcf)
          · exact h3 (hnames.mpr h)
  · intro fs path name hval
    rw [create_directory, hval]
    rfl
  · intro fs path name hval hex
    rw [create_directory, hval]
    simp only [Bool.not_true, Bool.false_eq_true, if_false]
    rw [fsMkdirParents, if_pos hex]
  · intro fs path name hval hnone hdirs
    obtain ⟨fs', hgo, hlook⟩ := mkdirGo_spec (path ++ [name]) fs hdirs hnone
    refine ⟨fs', ?_, hlook⟩
    rw [create_directory, hval]
    simp only [Bool.not_true, Bool.false_eq_true, if_false]
    rw [fsMkdirParents, if_neg (by simp [hnone]), hgo]

/-! ## Directory listing: hidden filter and ordering (claim C7) -/

theorem lexLe_nil (bs : List Char) : lexLe [] bs = true := rfl

theorem lexLe_cons_nil (a : Char) (as : List Char) :
    lexLe (a :: as) [] = false := rfl

theorem lexLe_cons_cons (a b : Char) (as bs : List Char) :
    lexLe (a :: as) (b :: bs) =
      if a.toNat < b.toNat then true
      else if b.toNat < a.toNat then false
      else lexLe as bs := rfl

theorem lexLe_total : ∀ as bs : List Char,
    lexLe as bs = true ∨ lexLe bs as = true := by
  intro as
  induction as with
  | nil => intro bs; exact Or.inl (lexLe_nil bs)
  | cons a as ih =>
    intro bs
    cases bs with
    | nil => exact Or.inr (lexLe_nil (a :: as))
    | cons b bs =>
      rw [lexLe_cons_cons, lexLe_cons_cons]
      by_cases h1 : a.toNat < b.toNat
      · left; rw [if_pos h1]
      · by_cases h2 : b.toNat < a.toNat
        · right; rw [if_pos h2]
        · rw [if_neg h1, if_neg h2, if_neg h2, if_neg h1]
          exact ih bs

theorem lexLe_trans : ∀ as bs cs : List Char,
    lexLe as bs = true → lexLe bs cs = true → lexLe as cs = true := by
  intro as
  induction as with
  | nil => intro bs cs _ _; exact lexLe_nil cs
  | cons a as ih =>
    intro bs cs hab hbc
    cases bs with
    | nil => rw [lexLe_cons_nil] at hab; cases hab
    | cons b bs =>
      cases cs with
      | nil => rw [lexLe_cons_nil] at hbc; cases hbc
      | cons c cs =>
        rw [lexLe_cons_cons] at hab hbc ⊢
        by_cases h1 : a.toNat < b.toNat
        · by_cases h2 : b.toNat < c.toNat
          · rw [if_pos (by omega : a.toNat < c.toNat)]
          · by_cases h3 : c.toNat < b.toNat
            · rw [if_neg h2, if_pos h3] at hbc
              cases hbc
            · rw [if_pos (by omega : a.toNat < c.toNat)]
        · by_cases h2 : b.toNat < a.toNat
          · rw [if_neg h1, if_pos h2] at hab
            cases hab
          · -- a.toNat = b.toNat
            by_cases h3 : b.toNat < c.toNat
            · rw [if_pos (by omega : a.toNat < c.toNat)]
            · by_cases h4 : c.toNat < b.toNat
              · rw [if_neg h3, if_pos h4] at hbc
                cases hbc
              · rw [if_neg h1, if_neg h2] at hab
                rw [if_neg h3, if_neg h4] at hbc
                rw [if_neg (by omega : ¬a.toNat < c.toNat),
                  if_neg (by omega : ¬c.toNat < a.toNat)]
                exact ih bs cs hab hbc

theorem panelLe_total : ∀ a b : FileItem, panelLe a b ∨ panelLe b a := by
  intro a b
  cases ha : a.is_dir <;> cases hb : b.is_dir
  · cases lexLe_total (strLower a.name).data (strLower b.name).data with
    | inl h => exact Or.inl (Or.inr ⟨by rw [ha, hb], h⟩)
    | inr h => exact Or.inr (Or.inr ⟨by rw [ha, hb], h⟩)
  · exact Or.inr (Or.inl (by rw [ha, hb]; rfl))
  · exact Or.inl (Or.inl (by rw [ha, hb]; rfl))
  · cases lexLe_total (strLower a.name).data (strLower b.name).data with
    | inl h => exact Or.inl (Or.inr ⟨by rw [ha, hb], h⟩)
    | inr h => exact Or.inr (Or.inr ⟨by rw [ha, hb], h⟩)

theorem panelLe_trans : ∀ a b c : FileItem,
    panelLe a b → panelLe b c → panelLe a c := by
  intro a b c hab hbc
  rcases hab with hab | ⟨hab, hlab⟩
  · rcases hbc with hbc | ⟨hbc, hlbc⟩
    · rw [Bool.and_eq_true] at hab hbc
      rw [Bool.not_eq_true'] at hab hbc
      rw [hab.2] at hbc
      cases hbc.1
    · rw [Bool.and_eq_true] at hab
      rw [Bool.not_eq_true'] at hab
      exact Or.inl (by rw [Bool.and_eq_true, Bool.not_eq_true',
        hab.1, ← hbc, hab.2]; exact ⟨rfl, rfl⟩)
  · rcases hbc with hbc | ⟨hbc, hlbc⟩
    · rw [Bool.and_eq_true] at hbc
      exact Or.inl (by rw [Bool.and_eq_true, hab]; exact hbc)
    · exact Or.inr ⟨hab.trans hbc,
        lexLe_trans _ _ _ hlab hlbc⟩

/-- **C7.** The listing built by the panels contains the synthetic parent
entry (when one is supplied) and, for each direct child, its `FileItem`,
excluding exactly those children whose name starts with the hidden marker
`"."` when `show_hidden` is false; with `show_hidden = true` no child is
excluded (the listing is a permutation of all of them); and every listing
is ordered with directories before files and case-insensitively ascending
names within each group. -/
theorem listing_filter_and_order :
    (∀ (parentOpt : Option FileItem) (sh : Bool) (parent : FsPath)
       (ch : List (String × Node)) (e : FileItem),
      e ∈ buildListing parentOpt sh (ch.map (fileItemOfChild parent)) ↔
        (e ∈ parentOpt.toList ∨ ∃ c ∈ ch, e = fileItemOfChild parent c ∧
          (strStartsWith c.1 "." = false ∨ sh = true))) ∧
    (∀ (parentOpt : Option FileItem) (parent : FsPath)
       (ch : List (String × Node)),
      (buildListing parentOpt true (ch.map (fileItemOfChild parent))).Perm
        (parentOpt.toList ++ ch.map (fileItemOfChild parent))) ∧
    (∀ (parentOpt : Option FileItem) (sh : Bool)
       (children : List FileItem),
      (buildListing parentOpt sh children).Pairwise
        (fun a b => (b.is_dir = true → a.is_dir = true) ∧
          (a.is_dir = b.is_dir →
            lexLe (strLower a.name).data (strLower b.name).data = true))) := by
  refine ⟨?_, ?_, ?_⟩
  · intro parentOpt sh parent ch e
    rw [buildListing]
    rw [(List.perm_insertionSort panelLe _).mem_iff]
    rw [List.mem_append, List.mem_filter]
    constructor
    · rintro (hp | ⟨hmem, hcond⟩)
      · exact Or.inl hp
      · rw [List.mem_map] at hmem
        obtain ⟨c, hc, rfl⟩ := hmem
        refine Or.inr ⟨c, hc, rfl, ?_⟩
        have : (fileItemOfChild parent c).is_hidden = strStartsWith c.1 "." := rfl
        rw [this] at hcond
        cases hsw : strStartsWith c.1 "." <;> cases hsh : sh <;>
          simp [hsw, hsh] at hcond ⊢
    · rintro (hp | ⟨c, hc, rfl, hcond⟩)
      · exact Or.inl hp
      · refine Or.inr ⟨List.mem_map_of_mem _ hc, ?_⟩
        have : (fileItemOfChild parent c).is_hidden = strStartsWith c.1 "." := rfl
        rw [this]
        cases hsw : strStartsWith c.1 "." <;> cases hsh : sh <;>
          simp [hsw, hsh] at hcond ⊢
  · intro parentOpt parent ch
    rw [buildListing]
    refine (List.perm_insertionSort panelLe _).trans ?_
    have : ∀ l : List FileItem,
        l.filter (fun c => !(c.is_hidden && !true)) = l := by
      intro l
      apply List.filter_eq_self.mpr
      intro a _
      simp
    rw [this]
  · intro parentOpt sh children
    rw [buildListing]
    haveI : IsTotal FileItem panelLe := ⟨panelLe_total⟩
    haveI : IsTrans FileItem panelLe := ⟨panelLe_trans⟩
    refine List.Pairwise.imp ?_ (List.sorted_insertionSort panelLe _)
    intro a b hab
    rcases hab with hab | ⟨heq, hlex⟩
    · rw [Bool.and_eq_true, Bool.not_eq_true'] at hab
      exact ⟨fun _ => hab.1,
        fun h => absurd ((hab.1.symm.trans h).trans hab.2) (by decide)⟩
    · exact ⟨fun h => heq.trans h, fun _ => hlex⟩

/-! ## Cursor clamping and scroll visibility (claim C8) -/

theorem ensureSelectedVisible_window (sel off rows : Int) (hs : 0 ≤ sel)
    (hr : 1 ≤ rows) : inWindow sel (ensureSelectedVisible sel off rows) rows := by
  simp only [ensureSelectedVisible, inWindow]
  split_ifs <;> omega

theorem moveCursor_invariant (len : Nat) (maxRows : Int) (st : CursorState)
    (delta : Int) (hlen : 0 < len) (h0 : 0 ≤ st.selected_index)
    (h1 : st.selected_index < len) :
    0 ≤ (moveCursor len maxRows st delta).selected_index ∧
      (moveCursor len maxRows st delta).selected_index < len := by
  rw [moveCursor, if_neg (by omega : ¬len = 0)]
  by_cases h :
      max 0 (min ((len : Int) - 1) (st.selected_index + delta)) ≠
        st.selected_index
  · rw [if_pos h]
    refine ⟨le_max_left 0 _, ?_⟩
    simp only [max_lt_iff, min_lt_iff]
    omega
  · rw [if_neg h]
    exact ⟨h0, h1⟩

theorem moveCursor_window (len : Nat) (maxRows : Int) (st : CursorState)
    (delta : Int) (hlen : 0 < len) (hr : 1 ≤ maxRows)
    (hw : inWindow st.selected_index st.scroll_offset maxRows) :
    inWindow (moveCursor len maxRows st delta).selected_index
      (moveCursor len maxRows st delta).scroll_offset maxRows := by
  rw [moveCursor, if_neg (by omega : ¬len = 0)]
  by_cases h :
      max 0 (min ((len : Int) - 1) (st.selected_index + delta)) ≠
        st.selected_index
  · rw [if_pos h]
    exact ensureSelectedVisible_window _ _ _ (le_max_left 0 _) hr
  · rw [if_neg h]
    exact hw

theorem moveCursorSeq_invariant : ∀ (deltas : List Int) (len : Nat)
    (maxRows : Int) (st : CursorState), 0 < len →
    0 ≤ st.selected_index → st.selected_index < len →
    0 ≤ (moveCursorSeq len maxRows st deltas).selected_index ∧
      (moveCursorSeq len maxRows st deltas).selected_index < len := by
  intro deltas
  induction deltas with
  | nil => intro len maxRows st _ h0 h1; exact ⟨h0, h1⟩
  | cons d ds ih =>
    intro len maxRows st hlen h0 h1
    have hstep := moveCursor_invariant len maxRows st d hlen h0 h1
    exact ih len maxRows (moveCursor len maxRows st d) hlen hstep.1 hstep.2

theorem moveCursorSeq_window : ∀ (deltas : List Int) (len : Nat)
    (maxRows : Int) (st : CursorState), 0 < len → 1 ≤ maxRows →
    inWindow st.selected_index st.scroll_offset maxRows →
    inWindow (moveCursorSeq len maxRows st deltas).selected_index
      (moveCursorSeq len maxRows st deltas).scroll_offset maxRows := by
  intro deltas
  induction deltas with
  | nil => intro len maxRows st _ _ hw; exact hw
  | cons d ds ih =>
    intro len maxRows st hlen hr hw
    exact ih len maxRows (moveCursor len maxRows st d) hlen hr
      (moveCursor_window len maxRows st d hlen hr hw)

/-- **C8.** The visible-row count computed from the table height is
always at least 1; for every panel with a non-empty entry list, any
sequence of `_move_cursor` calls keeps `0 <= cursor_index < len(entries)`
(each call clamps to `[0, len-1]`); `_ensure_selected_visible` follows
exactly the claimed adjustment rule (pull up to the cursor, pull down to
`cursor - visible_rows + 1`, keep otherwise, floored at `0`); and the
cursor stays inside the visible scroll window throughout the sequence. -/
theorem move_cursor_invariant_spec :
    (∀ h : Int, 1 ≤ visibleRows h) ∧
    (∀ (len : Nat) (maxRows : Int) (st : CursorState) (deltas : List Int),
      0 < len → 0 ≤ st.selected_index → st.selected_index < len →
      0 ≤ (moveCursorSeq len maxRows st deltas).selected_index ∧
        (moveCursorSeq len maxRows st deltas).selected_index < len) ∧
    (∀ sel off rows : Int,
      (sel < off → ensureSelectedVisible sel off rows = max 0 sel) ∧
      (off ≤ sel → off + rows ≤ sel →
        ensureSelectedVisible sel off rows = max 0 (sel - rows + 1)) ∧
      (off ≤ sel → sel < off + rows →
        ensureSelectedVisible sel off rows = max 0 off)) ∧
    (∀ (len : Nat) (maxRows : Int) (st : CursorState) (deltas : List Int),
      0 < len → 1 ≤ maxRows →
      inWindow st.selected_index st.scroll_offset maxRows →
      inWindow (moveCursorSeq len maxRows st deltas).selected_index
        (moveCursorSeq len maxRows st deltas).scroll_offset maxRows) := by
  refine ⟨?_, ?_, ?_, ?_⟩
  · intro h
    rw [visibleRows]
    split_ifs
    · exact le_max_left 1 _
    · omega
  · intro len maxRows st deltas hlen h0 h1
    exact moveCursorSeq_invariant deltas len maxRows st hlen h0 h1
  · intro sel off rows
    refine ⟨?_, ?_, ?_⟩ <;>
      · intros
        simp only [ensureSelectedVisible]
        split_ifs <;> omega
  · intro len maxRows st deltas hlen hr hw
    exact moveCursorSeq_window deltas len maxRows st hlen hr hw

/-! ## Panel navigation (claim C9) -/

theorem load_directory_of_dir (fs : Node) (home : FsPath) (h : Int)
    (st : PanelState) (p : FsPath) (ch : List (String × Node))
    (hlook : fsLookup fs p = some (Node.dir ch)) :
    load_directory fs home h st (some p) =
      { st with
        current_path := p
        file_items := buildListing
          (if p ≠ ([] : FsPath) then some (create_parent_item p) else none)
          st.show_hidden (ch.map (fileItemOfChild p))
        selected_index :=
          if 0 ≤ st.selected_index ∧ st.selected_index <
              (buildListing
                (if p ≠ ([] : FsPath) then some (create_parent_item p) else none)
                st.show_hidden (ch.map (fileItemOfChild p))).length then
            st.selected_index
          else 0
        scroll_offset := ensureSelectedVisible
          (if 0 ≤ st.selected_index ∧ st.selected_index <
              (buildListing
                (if p ≠ ([] : FsPath) then some (create_parent_item p) else none)
                st.show_hidden (ch.map (fileItemOfChild p))).length then
            st.selected_index
          else 0) 0 (visibleRows h)
        selected_items := [] } := by
  rw [load_directory]
  simp only [Option.getD_some, hlook, Option.isNone_some, Bool.false_eq_true,
    if_false, ite_false]

/-- **C9 counterexample.** Navigating a panel whose cursor sits at index 1
into a directory with four listed entries keeps the cursor at 1: the
claim's "resets the cursor index to 0" is false on the code. -/
theorem load_directory_keeps_cursor_counterexample :
    (load_directory
        (Node.dir [("a", Node.dir
          [("x", Node.file 1), ("y", Node.file 2), ("z", Node.file 3)])])
        [] 23
        ⟨[], true, 1, 0, [], []⟩ (some ["a"])).selected_index = 1 ∧
    (1 : Int) ≠ 0 := by
  exact ⟨by rfl, by decide⟩

/-- **C9 (amended).** `load_directory(path)` — the panel's `navigate` —
replaces `current_path` with the given path, rebuilds the entry list,
clears the multi-selection, and resets the scroll offset to `0` before
re-adjusting it so the cursor is visible; the cursor index is *kept* when
it is still within range of the new listing and reset to `0` only when it
is out of range; when the given path does not exist the home directory is
silently substituted. -/
theorem load_directory_navigate_spec :
    (∀ fs home h st p ch, fsLookup fs p = some (Node.dir ch) →
      (load_directory fs home h st (some p)).current_path = p ∧
      (load_directory fs home h st (some p)).selected_items = [] ∧
      (load_directory fs home h st (some p)).file_items =
        buildListing
          (if p ≠ ([] : FsPath) then some (create_parent_item p) else none)
          st.show_hidden (ch.map (fileItemOfChild p)) ∧
      ((0 ≤ st.selected_index ∧ st.selected_index <
          (load_directory fs home h st (some p)).file_items.length) →
        (load_directory fs home h st (some p)).selected_index =
          st.selected_index) ∧
      (¬(0 ≤ st.selected_index ∧ st.selected_index <
          (load_directory fs home h st (some p)).file_items.length) →
        (load_directory fs home h st (some p)).selected_index = 0) ∧
      (load_directory fs home h st (some p)).scroll_offset =
        ensureSelectedVisible
          (load_directory fs home h st (some p)).selected_index 0
          (visibleRows h)) ∧
    (∀ fs home h st p hch, fsLookup fs p = none →
      fsLookup fs home = some (Node.dir hch) →
      (load_directory fs home h st (some p)).current_path = home) := by
  constructor
  · intro fs home h st p ch hlook
    rw [load_directory_of_dir fs home h st p ch hlook]
    refine ⟨rfl, rfl, rfl, ?_, ?_, ?_⟩
    · intro hin
      simp only at hin ⊢
      rw [if_pos hin]
    · intro hout
      simp only at hout ⊢
      rw [if_neg hout]
    · rfl
  · intro fs home h st p hch hnone hhome
    rw [load_directory]
    simp only [Option.getD_some, hnone, Option.isNone_none, if_pos, if_true,
      hhome]

/-! ## Overwrite semantics of copy and move (claim C4) -/

theorem assocFind_assocSet_ne (ch : List (String × Node)) {m n : String}
    (v : Node) (h : m ≠ n) :
    assocFind (assocSet ch m v) n = assocFind ch n := by
  induction ch with
  | nil =>
    show assocFind [(m, v)] n = assocFind [] n
    rw [assocFind_cons, if_neg h]
  | cons e rest ih =>
    obtain ⟨k, w⟩ := e
    rw [assocSet_cons]
    by_cases hk : k = m
    · rw [if_pos hk, assocFind_cons, assocFind_cons]
      rw [hk]
      rw [if_neg h, if_neg h]
    · rw [if_neg hk, assocFind_cons, assocFind_cons]
      by_cases hkn : k = n
      · rw [if_pos hkn, if_pos hkn]
      · rw [if_neg hkn, if_neg hkn]
        exact ih

theorem fsLookup_nil (node : Node) : fsLookup node [] = some node := by
  cases node <;> rfl

theorem fsSetGo_lookup : ∀ (p : FsPath) (fs v fs' : Node),
    fsSetGo p fs v = some fs' → fsLookup fs' p = some v := by
  intro p
  induction p with
  | nil => intro fs v fs' h; cases h; exact fsLookup_nil v
  | cons n rest ih =>
    intro fs v fs' h
    cases rest with
    | nil =>
      cases fs with
      | file w => cases h
      | dir ch =>
        cases h
        rw [fsLookup_dir_cons, assocFind_assocSet_self]
        exact fsLookup_nil v
    | cons r rs =>
      cases fs with
      | file w => cases h
      | dir ch =>
        rw [show fsSetGo (n :: r :: rs) (Node.dir ch) v =
            (match assocFind ch n with
             | some c => (fsSetGo (r :: rs) c v).map
                 (fun c' => Node.dir (assocSet ch n c'))
             | none => none) from rfl] at h
        cases hfind : assocFind ch n with
        | none => rw [hfind] at h; cases h
        | some c =>
          rw [hfind] at h
          dsimp only at h
          cases hgo : fsSetGo (r :: rs) c v with
          | none => rw [hgo] at h; cases h
          | some c' =>
            rw [hgo] at h
            cases h
            rw [fsLookup_dir_cons, assocFind_assocSet_self]
            exact ih c v c' hgo

theorem fsSetGo_exists : ∀ (p : FsPath) (fs v : Node),
    (fsLookup fs p).isSome = true → ∃ fs', fsSetGo p fs v = some fs' := by
  intro p
  induction p with
  | nil => intro fs v _; exact ⟨v, rfl⟩
  | cons n rest ih =>
    intro fs v hsome
    cases fs with
    | file w => simp [fsLookup] at hsome
    | dir ch =>
      rw [fsLookup_dir_cons] at hsome
      cases hfind : assocFind ch n with
      | none => rw [hfind] at hsome; simp at hsome
      | some c =>
        rw [hfind] at hsome
        dsimp only at hsome
        cases rest with
        | nil => exact ⟨Node.dir (assocSet ch n v), rfl⟩
        | cons r rs =>
          obtain ⟨c', hc'⟩ := ih c v hsome
          refine ⟨Node.dir (assocSet ch n c'), ?_⟩
          rw [show fsSetGo (n :: r :: rs) (Node.dir ch) v =
              (match assocFind ch n with
               | some c => (fsSetGo (r :: rs) c v).map
                   (fun c' => Node.dir (assocSet ch n c'))
               | none => none) from rfl, hfind]
          dsimp only
          rw [hc']
          rfl

theorem copytreeChildren_preserves : ∀ (srcCh dstCh ch' : List (String × Node))
    (n : String), copytreeChildren srcCh dstCh = Except.ok ch' →
    n ∉ srcCh.map Prod.fst → assocFind ch' n = assocFind dstCh n := by
  intro srcCh
  induction srcCh with
  | nil =>
    intro dstCh ch' n h _
    rw [show copytreeChildren [] dstCh = Except.ok dstCh from rfl] at h
    cases h
    rfl
  | cons e rest ih =>
    intro dstCh ch' n h hn
    obtain ⟨m, c⟩ := e
    simp only [List.map_cons, List.mem_cons] at hn
    push_neg at hn
    have hmn : m ≠ n := fun hc => hn.1 hc.symm
    cases c with
    | dir s =>
      rw [show copytreeChildren ((m, Node.dir s) :: rest) dstCh =
          (match copytreeMerge (Node.dir s) (assocFind dstCh m) with
           | Except.ok merged => copytreeChildren rest (assocSet dstCh m merged)
           | Except.error e => Except.error e) from rfl] at h
      cases hmerge : copytreeMerge (Node.dir s) (assocFind dstCh m) with
      | error e => rw [hmerge] at h; cases h
      | ok merged =>
        rw [hmerge] at h
        rw [ih _ _ _ h hn.2]
        exact assocFind_assocSet_ne dstCh merged hmn
    | file v =>
      rw [show copytreeChildren ((m, Node.file v) :: rest) dstCh =
          (match assocFind dstCh m with
           | some (Node.dir inner) =>
             match assocFind inner m with
             | some (Node.dir _) => Except.error "IsADirectoryError"
             | _ => copytreeChildren rest
                 (assocSet dstCh m (Node.dir (assocSet inner m (Node.file v))))
           | _ => copytreeChildren rest (assocSet dstCh m (Node.file v)))
          from rfl] at h
      cases hfind : assocFind dstCh m with
      | none =>
        rw [hfind] at h
        rw [ih _ _ _ h hn.2]
        exact assocFind_assocSet_ne dstCh (Node.file v) hmn
      | some dnode =>
        rw [hfind] at h
        cases dnode with
        | file w =>
          rw [ih _ _ _ h hn.2]
          exact assocFind_assocSet_ne dstCh (Node.file v) hmn
        | dir inner =>
          dsimp only at h
          cases hinner : assocFind inner m with
          | none =>
            rw [hinner] at h
            rw [ih _ _ _ h hn.2]
            exact assocFind_assocSet_ne dstCh _ hmn
          | some inode =>
            rw [hinner] at h
            cases inode with
            | file w =>
              rw [ih _ _ _ h hn.2]
              exact assocFind_assocSet_ne dstCh _ hmn
            | dir d => cases h

/-- **C4 counterexample.** `move_items` with an existing *directory*
destination and an `'overwrite'` resolution does not replace the
destination with the source: `shutil.move` relocates the source *inside*
the old destination.  Moving directory `/srcdir/d` into `/dst` where
`/dst/d` already exists reports success, yet afterwards `/dst/d` still
holds its old child `y` plus the whole source nested at `/dst/d/d` — it
does not hold the source's content. -/
theorem move_overwrite_nests_counterexample :
    (move_items false (some fun _ => "overwrite")
        ⟨fun _ => none, fun _ => false⟩
        [⟨"d", ["srcdir", "d"], true, none, false⟩] ["dst"]
        (Node.dir
          [("srcdir", Node.dir [("d", Node.dir [("x", Node.file 1)])]),
           ("dst", Node.dir [("d", Node.dir [("y", Node.file 2)])])])).1.map
        (fun r => r.result) = [some OperationResult.success] ∧
    fsLookup
      (move_items false (some fun _ => "overwrite")
          ⟨fun _ => none, fun _ => false⟩
          [⟨"d", ["srcdir", "d"], true, none, false⟩] ["dst"]
          (Node.dir
            [("srcdir", Node.dir [("d", Node.dir [("x", Node.file 1)])]),
             ("dst", Node.dir [("d", Node.dir [("y", Node.file 2)])])])).2.1
      ["dst", "d"] =
      some (Node.dir [("y", Node.file 2), ("d", Node.dir [("x", Node.file 1)])]) ∧
    Node.dir [("y", Node.file 2), ("d", Node.dir [("x", Node.file 1)])] ≠
      Node.dir [("x", Node.file 1)] := by
  refine ⟨by rfl, by rfl, ?_⟩
  intro hcontra
  have hname := congrArg
    (fun t => match t with
      | Node.dir ((nm, _) :: _) => nm
      | _ => "") hcontra
  exact absurd hname (by decide)

/-- **C4 (amended).** With an `'overwrite'` resolution (or any decision
other than cancel/skip/rename) the engine proceeds with the single-item
operation at the original destination.  For `copy_items` the claim holds:
a file source replaces an existing file destination, and a directory
source is recursively merged onto an existing directory destination, with
destination children absent from the source preserved, the merged tree
sitting at the destination path itself.  For `move_items` the claim holds
only for an existing *file* destination (replaced via rename); onto an
existing *directory* destination `shutil.move` relocates the source to
`destination / basename(source)` — nested inside the old destination —
erroring instead if that inner path already exists. -/
theorem overwrite_copy_merges_move_nests :
    (∀ (res : Nat → String) (env : BatchEnv) (destDir : FsPath)
       (op : OperationType) (i : Nat) (item : FileItem) (fs : Node)
       (bytes : Nat),
      (fsLookup fs (destDir ++ [item.name])).isSome = true →
      res i = "overwrite" →
      processItem (some res) env destDir op i item fs bytes =
        some (execOne op (env.fault i) item fs bytes
          (destDir ++ [item.name]))) ∧
    (∀ (fs : Node) (src dst : FsPath) (v w : Nat),
      fsLookup fs src = some (Node.file v) →
      fsLookup fs dst = some (Node.file w) →
      ∃ fs', copySingle fs src dst = Except.ok fs' ∧
        fsLookup fs' dst = some (Node.file v)) ∧
    (∀ (fs : Node) (src dst : FsPath) (srcCh dstCh ch' : List (String × Node)),
      fsLookup fs src = some (Node.dir srcCh) →
      fsLookup fs dst = some (Node.dir dstCh) →
      copytreeChildren srcCh dstCh = Except.ok ch' →
      ∃ fs', copySingle fs src dst = Except.ok fs' ∧
        fsLookup fs' dst = some (Node.dir ch')) ∧
    (∀ (srcCh dstCh ch' : List (String × Node)) (n : String),
      copytreeChildren srcCh dstCh = Except.ok ch' →
      n ∉ srcCh.map Prod.fst →
      assocFind ch' n = assocFind dstCh n) ∧
    (∀ (fs : Node) (src dst : FsPath) (v w : Nat) (fs₁ fs₂ : Node),
      fsLookup fs src = some (Node.file v) →
      fsLookup fs dst = some (Node.file w) →
      src ≠ dst →
      fsRemove fs src = some fs₁ →
      fsSet fs₁ dst (Node.file v) = some fs₂ →
      moveSingle fs src dst = Except.ok fs₂ ∧
        fsLookup fs₂ dst = some (Node.file v)) ∧
    (∀ (fs : Node) (src dst : FsPath) (srcNode : Node)
       (dch : List (String × Node)) (fs₁ fs₂ : Node),
      fsLookup fs src = some srcNode →
      fsLookup fs dst = some (Node.dir dch) →
      src.isPrefixOf dst = false →
      fsLookup fs (dst ++ [lastName src]) = none →
      fsRemove fs src = some fs₁ →
      fsSet fs₁ (dst ++ [lastName src]) srcNode = some fs₂ →
      moveSingle fs src dst = Except.ok fs₂ ∧
        fsLookup fs₂ (dst ++ [lastName src]) = some srcNode) := by
  refine ⟨?_, ?_, ?_, copytreeChildren_preserves, ?_, ?_⟩
  · intro res env destDir op i item fs bytes hconf hov
    delta processItem
    rw [hconf]
    dsimp only
    rw [if_neg (by rw [hov]; decide), if_neg (by rw [hov]; decide),
      if_neg (by rw [hov]; decide)]
  · intro fs src dst v w hsrc hdst
    have htgt : copy2Target fs src dst = dst := by
      rw [copy2Target, hdst]
    obtain ⟨fs', hset⟩ := fsSetGo_exists dst fs (Node.file v)
      (by rw [hdst]; rfl)
    refine ⟨fs', ?_, fsSetGo_lookup dst fs (Node.file v) fs' hset⟩
    delta copySingle
    rw [hsrc]
    dsimp only
    rw [htgt, hdst]
    dsimp only
    rw [show fsSet fs dst (Node.file v) = fsSetGo dst fs (Node.file v)
      from rfl, hset]
  · intro fs src dst srcCh dstCh ch' hsrc hdst hmerge
    obtain ⟨fs', hset⟩ := fsSetGo_exists dst fs (Node.dir ch')
      (by rw [hdst]; rfl)
    refine ⟨fs', ?_, fsSetGo_lookup dst fs (Node.dir ch') fs' hset⟩
    delta copySingle
    rw [hsrc]
    dsimp only
    rw [hdst]
    rw [show copytreeMerge (Node.dir srcCh) (some (Node.dir dstCh)) =
      (copytreeChildren srcCh dstCh).map Node.dir from rfl, hmerge]
    dsimp only [Except.map]
    rw [show fsSet fs dst (Node.dir ch') = fsSetGo dst fs (Node.dir ch')
      from rfl, hset]
  · intro fs src dst v w fs₁ fs₂ hsrc hdst hne hrem hset
    constructor
    · delta moveSingle
      rw [hsrc, hdst]
      dsimp only
      delta renameNode
      rw [if_neg hne, hdst]
      dsimp only
      rw [hrem]
      dsimp only
      rw [hset]
    · exact fsSetGo_lookup dst fs₁ (Node.file v) fs₂ hset
  · intro fs src dst srcNode dch fs₁ fs₂ hsrc hdst hpre hreal hrem hset
    constructor
    · delta moveSingle
      rw [hsrc, hdst]
      dsimp only
      rw [if_neg (by rw [hpre]; decide), if_neg (by rw [hreal]; decide)]
      delta renameNode
      rw [if_neg (by
        intro heq
        rw [heq] at hsrc
        rw [hsrc] at hreal
        cases hreal), hreal]
      dsimp only
      rw [hrem]
      dsimp only
      rw [hset]
    · exact fsSetGo_lookup (dst ++ [lastName src]) fs₁ srcNode fs₂ hset

end CFM
